import Mathlib

/-!
Verification of the PocketRockets auction-game engine and simulator
(`src/app/competition/game.py`, `src/app/competition/interface.py`,
`src/app/competition/simulator.py`).

The Python classes are shallowly embedded as Lean structures and pure
functions.  Mutable engine state (`_EngineState` together with the
`_players` list) becomes the `GameState` record; each iteration of the
`play()` while-loop becomes the `loopIter` function, and the loop itself
`runLoop`, driven by a fuel argument.  Everything the engine obtains from
bots or from the seeded RNG (bids, reveal choices, shuffles, the initial
tiebreak-leader choice) is supplied by an `Oracle` record, so theorems
quantified over all oracles cover every bot behaviour and every RNG
outcome.  Python exceptions raised by bots are modelled as `none` bid
values; the construction-time exceptions of `PocketRocketsEngine.__init__`
become an `Except ConfigError` result.
-/

set_option maxRecDepth 10000

namespace PocketRockets

/-- `Suit` enum of `interface.py`. -/
inductive Suit
  | ruby | sapphire | emerald | amethyst | diamond
  deriving DecidableEq, Repr

/-- `for s in Suit` iteration order (Python enum declaration order). -/
def allSuits : List Suit := [.ruby, .sapphire, .emerald, .amethyst, .diamond]

/-- `Suit.name` as used in trinket id strings. -/
def suitName : Suit → String
  | .ruby => "RUBY"
  | .sapphire => "SAPPHIRE"
  | .emerald => "EMERALD"
  | .amethyst => "AMETHYST"
  | .diamond => "DIAMOND"

/-- `Card` of `interface.py`: used both for gems and info cards. -/
structure Card where
  id : String
  suit : Suit
  deriving DecidableEq, Repr

/-- `ActionType` of `interface.py`. -/
inductive ActionType
  | auction1 | auction2 | loan10 | loan20 | invest5 | invest10
  deriving DecidableEq, Repr

/-- `Action` of `interface.py`. -/
structure GameAction where
  id : String
  kind : ActionType
  deriving DecidableEq, Repr

/-- `LoanPosition` of `interface.py`. -/
structure LoanPosition where
  id : String
  principal : Int
  winning_bid : Int
  deriving DecidableEq, Repr

/-- `InvestmentPosition` of `interface.py`. -/
structure InvestmentPosition where
  id : String
  payout : Int
  locked : Int
  deriving DecidableEq, Repr

/-- `ValueChart` of `interface.py`. -/
structure ValueChart where
  mapping : List Int
  deriving DecidableEq, Repr

/-- `TrinketObjective` of `interface.py` (`display_text` is irrelevant here). -/
structure TrinketObjective where
  id : String
  points : Int
  required_cards : List Card
  deriving DecidableEq, Repr

/-- `TrinketState` of `interface.py`. -/
structure TrinketState where
  objective : TrinketObjective
  claimed_by : Option Nat
  deriving DecidableEq, Repr

/-- `AuctionResult` of `interface.py`.  `winner_id` keeps the Python `int`
with `-1` as the "no winner" sentinel. -/
structure AuctionResult where
  turn_index : Nat
  action : GameAction
  winner_id : Int
  winning_bid : Int
  auctioned_gems : List Card
  new_tiebreak_leader_id : Nat
  trinkets_claimed : Option String
  bids : List Int
  deriving DecidableEq, Repr

/-- `count_gems` of `interface.py`, at one suit: the number of cards of
that suit in the list. -/
def count_gems (cards : List Card) (s : Suit) : Nat :=
  (cards.filter (fun c => c.suit = s)).length

/-- `objective_satisfied` of `interface.py`: every suit required by the
objective is owned in at least the required multiplicity. -/
def objective_satisfied (obj : TrinketObjective) (gems_owned : List Card) : Bool :=
  allSuits.all (fun s => count_gems obj.required_cards s ≤ count_gems gems_owned s)

/-- `_PlayerState` of `game.py` (the engine-owned mutable record). -/
structure PlayerState where
  player_id : Nat
  name : String
  cash : Int
  gems_owned : List Card
  loans : List LoanPosition
  investments : List InvestmentPosition
  revealed_info : List Card
  unrevealed_info : List Card
  trinket_points : Int
  deriving DecidableEq, Repr

/-- `EngineConfig` of `game.py`.  The Python `Mapping` fields become
association lists; `seed` is omitted because every use of the seeded RNG
is routed through the `Oracle` record. -/
structure EngineConfig where
  info_cards_per_player : List (Nat × Nat)
  starting_cash_by_players : List (Nat × Int)
  gems_per_suit : Nat
  action_counts : List (ActionType × Nat)
  discard_on_all_pass : Bool
  skip_auction2_if_insufficient_gems : Bool
  deriving Repr

/-- The `__post_init__` defaults of `EngineConfig`. -/
def defaultConfig : EngineConfig where
  info_cards_per_player := [(3, 5), (4, 4), (5, 3)]
  starting_cash_by_players := [(3, 30), (4, 25), (5, 20)]
  gems_per_suit := 6
  action_counts :=
    [(.auction1, 12), (.auction2, 5), (.loan10, 2), (.loan20, 2), (.invest5, 2), (.invest10, 2)]
  discard_on_all_pass := false
  skip_auction2_if_insufficient_gems := false

/-- `_EngineState` of `game.py` merged with the engine's `_players` list.
`info_counts_by_suit_at_start` is the dictionary frozen at construction
and only read by `_compute_score`. -/
structure GameState where
  gem_draw_pile : List Card
  upcoming : List Card
  action_draw_pile : List GameAction
  action_discard : List GameAction
  seating_order : List Nat
  tiebreak_leader_id : Nat
  trinkets : List TrinketState
  value_chart : ValueChart
  info_counts_by_suit_at_start : Suit → Nat
  players : List PlayerState
  past_auctions : List AuctionResult

instance : Inhabited PlayerState :=
  ⟨⟨0, "", 0, [], [], [], [], [], 0⟩⟩

instance : Inhabited GameState :=
  ⟨⟨[], [], [], [], [], 0, [], ⟨[]⟩, fun _ => 0, [], []⟩⟩

/-- Everything the engine obtains from the bots or from its seeded RNG.
A bot exception inside `get_bid` is the `none` bid.  Universally
quantifying over oracles covers every bot behaviour and every RNG
outcome; concrete oracles instantiate particular runs. -/
structure Oracle where
  getBid : GameState → Nat → Nat → Option Int
  chooseReveal : GameState → Nat → Nat → String
  shuffleGems : List Card → List Card
  shuffleActions : List GameAction → List GameAction
  reshuffleActions : GameState → List GameAction → List GameAction
  chooseLeader : List Nat → Nat
  botNameOf : Nat → String

/-- Python `dict.get` over an association list. -/
def alookup {α β : Type} [DecidableEq α] (m : List (α × β)) (k : α) : Option β :=
  (m.find? (fun p => p.1 = k)).map (·.2)

/-- Python `list.pop()` (remove and return the last element). -/
def popLast {α : Type} (l : List α) : Option (α × List α) :=
  match l.getLast? with
  | none => none
  | some x => some (x, l.dropLast)

/-- In-place update of `l[i]` (Python mutation of a list element). -/
def updateAt {α : Type} : List α → Nat → (α → α) → List α
  | [], _, _ => []
  | x :: xs, 0, f => f x :: xs
  | x :: xs, n + 1, f => x :: updateAt xs n f

/-- Python `max` over a nonempty list (`0` on the unreachable empty case). -/
def list_max : List Int → Int
  | [] => 0
  | b :: bs => bs.foldl max b

/-- `[pid for pid, b in enumerate(bids) if b == max_bid]`, with the running
`enumerate` index made explicit. -/
def tiedFrom (i : Nat) : List Int → Int → List Nat
  | [], _ => []
  | b :: bs, m =>
      if b = m then i :: tiedFrom (i + 1) bs m else tiedFrom (i + 1) bs m

/-- The indices of `bids` holding the value `m`. -/
def tiedOf (bids : List Int) (m : Int) : List Nat :=
  tiedFrom 0 bids m

/-- Bid legalisation of `_collect_bids`: the bid `amt` is `raw.getD 0`
(an exception becomes `0`), then `amt < 0 or amt > cash` is replaced by
`0`. -/
def legalize (raw : Option Int) (cash : Int) : Int :=
  if raw.getD 0 < 0 ∨ raw.getD 0 > cash then 0 else raw.getD 0

/-- `PocketRocketsEngine._make_gem_deck`: `gems_per_suit` cards per suit,
ids `G0`, `G1`, … numbered across suits in declaration order. -/
def make_gem_deck (gems_per_suit : Nat) : List Card :=
  ((List.range allSuits.length).zip allSuits).flatMap (fun p =>
    (List.range gems_per_suit).map (fun j =>
      { id := "G" ++ toString (p.1 * gems_per_suit + j), suit := p.2 }))

/-- `PocketRocketsEngine._make_action_deck`: per-kind counts expanded in
mapping order, ids `A0`, `A1`, … numbered across kinds. -/
def make_action_deck (counts : List (ActionType × Nat)) : List GameAction :=
  (counts.foldl
    (fun (acc : List GameAction × Nat) kn =>
      (acc.1 ++ (List.range kn.2).map (fun j =>
          { id := "A" ++ toString (acc.2 + j), kind := kn.1 }),
        acc.2 + kn.2))
    ([], 0)).1

/-- The inner loop of `_deal_info_cards` for one player: pop `per` cards
from the end of the gem deck into the player's unrevealed hand.  The
`none` branch is unreachable because the caller checked the deck size. -/
def dealToPlayer : Nat → List Card → PlayerState → List Card × PlayerState
  | 0, deck, p => (deck, p)
  | per + 1, deck, p =>
      match popLast deck with
      | none => (deck, p)
      | some (c, deck') =>
          dealToPlayer per deck' { p with unrevealed_info := p.unrevealed_info ++ [c] }

/-- `_deal_info_cards` over the player list in seating order. -/
def dealAll (per : Nat) : List Card → List PlayerState → List Card × List PlayerState
  | deck, [] => (deck, [])
  | deck, p :: ps =>
      let (deck', p') := dealToPlayer per deck p
      let (deck'', ps') := dealAll per deck' ps
      (deck'', p' :: ps')

/-- The start-of-game info census of `__init__`: for each suit, the total
number of info cards (unrevealed plus revealed) across all hands. -/
def info_counts_of (players : List PlayerState) (s : Suit) : Nat :=
  (players.map (fun p => count_gems p.unrevealed_info s + count_gems p.revealed_info s)).sum

/-- The construction-time exceptions of `PocketRocketsEngine.__init__`
(`ValueError` / `KeyError` in Python). -/
inductive ConfigError
  | badPlayerCount
  | noStartingCash
  | botNamesMismatch
  | noInfoCardCount
  | notEnoughGems
  deriving DecidableEq, Repr

/-- The success path of `PocketRocketsEngine.__init__` after validation:
fresh players, shuffled decks, dealing, the frozen info census, the
initial upcoming row (up to 2 pops), seating and the RNG-chosen tiebreak
leader. -/
def initBuild (o : Oracle) (numBots : Nat) (cfg : EngineConfig)
    (value_chart : ValueChart) (trinkets : List TrinketObjective)
    (names : List String) (starting_cash : Int) (per : Nat) : GameState :=
  let players : List PlayerState :=
    (List.range numBots).map (fun i =>
      { player_id := i, name := names.getD i "", cash := starting_cash,
        gems_owned := [], loans := [], investments := [],
        revealed_info := [], unrevealed_info := [], trinket_points := 0 })
  let gem_deck := o.shuffleGems (make_gem_deck cfg.gems_per_suit)
  let action_deck := o.shuffleActions (make_action_deck cfg.action_counts)
  let dealt := dealAll per gem_deck players
  let info_counts := info_counts_of dealt.2
  let pop1 : List Card × List Card :=
    match popLast dealt.1 with
    | none => ([], dealt.1)
    | some (c, d) => ([c], d)
  let pop2 : List Card × List Card :=
    match popLast pop1.2 with
    | none => (pop1.1, pop1.2)
    | some (c, d) => (pop1.1 ++ [c], d)
  let seating := List.range numBots
  { gem_draw_pile := pop2.2
    upcoming := pop2.1
    action_draw_pile := action_deck
    action_discard := []
    seating_order := seating
    tiebreak_leader_id := o.chooseLeader seating
    trinkets := trinkets.map (fun t => { objective := t, claimed_by := none })
    value_chart := value_chart
    info_counts_by_suit_at_start := info_counts
    players := dealt.2
    past_auctions := [] }

/-- The display-name step of `__init__`: default names from the bots, or
the supplied list, which must match the player count. -/
def checkNames (o : Oracle) (numBots : Nat) :
    Option (List String) → Except ConfigError (List String)
  | none => .ok ((List.range numBots).map o.botNameOf)
  | some ns => if ns.length ≠ numBots then .error .botNamesMismatch else .ok ns

/-- `PocketRocketsEngine.__init__`: the validation layers (each a Python
`raise`), then the success construction. -/
def engineInit (o : Oracle) (numBots : Nat) (cfg : EngineConfig)
    (value_chart : ValueChart) (trinkets : List TrinketObjective)
    (bot_names : Option (List String)) : Except ConfigError GameState :=
  if ¬ (3 ≤ numBots ∧ numBots ≤ 5) then .error .badPlayerCount
  else
    match alookup cfg.starting_cash_by_players numBots with
    | none => .error .noStartingCash
    | some starting_cash =>
      match checkNames o numBots bot_names with
      | .error e => .error e
      | .ok names =>
        match alookup cfg.info_cards_per_player numBots with
        | none => .error .noInfoCardCount
        | some per =>
          if (o.shuffleGems (make_gem_deck cfg.gems_per_suit)).length < numBots * per then
            .error .notEnoughGems
          else
            .ok (initBuild o numBots cfg value_chart trinkets names starting_cash per)

/-- The body of `_refill_upcoming`'s while loop, with an explicit
iteration bound: while the row has fewer than 2 gems and the pile is
nonempty, move the pile's top (last) card to the row.  Each pass shrinks
the pile by one card, so `pile.length` passes always cover the loop. -/
def refill_go : Nat → List Card → List Card → List Card × List Card
  | 0, upcoming, pile => (upcoming, pile)
  | fuel + 1, upcoming, pile =>
      if upcoming.length < 2 then
        match popLast pile with
        | none => (upcoming, pile)
        | some cd => refill_go fuel (upcoming ++ [cd.1]) cd.2
      else (upcoming, pile)

/-- `_refill_upcoming`. -/
def refill_upcoming (upcoming pile : List Card) : List Card × List Card :=
  refill_go pile.length upcoming pile

/-- The `for pid in scan` loop of `_tie_break_winner`: the first scanned
player in the tied set, with the Python `return tied_ids[0]` fallback for
the "should never happen" case. -/
def scan_pick (scan tied_ids : List Nat) : Nat :=
  match scan.find? (fun pid => tied_ids.contains pid) with
  | some pid => pid
  | none => tied_ids.headD 0

/-- The clockwise scan order of `_tie_break_winner`:
`order[leader_idx+1:] + order[:leader_idx+1]`. -/
def scan_order (seating : List Nat) (leader_id : Nat) : List Nat :=
  seating.drop (seating.findIdx (fun x => x = leader_id) + 1) ++
    seating.take (seating.findIdx (fun x => x = leader_id) + 1)

/-- `_tie_break_winner`: scan the seating order clockwise starting right
after the leader, the leader last; the first scanned member of the tied
set wins. -/
def tie_break_winner (seating : List Nat) (tied_ids : List Nat) (leader_id : Nat) : Nat :=
  scan_pick (scan_order seating leader_id) tied_ids

/-- `_resolve_winner`: returns `(winner_id, winning_bid)`, with
`winner_id = -1` only in the all-pass-discard case.  In `game.py` the
`max(bids)` and the tied list are computed once into locals; they are
inlined here. -/
def resolve_winner (discard_on_all_pass : Bool) (tiebreak_leader_id : Nat)
    (seating : List Nat) (bids : List Int) : Int × Int :=
  if list_max bids = 0 ∧ discard_on_all_pass then (-1, 0)
  else if (tiedOf bids (list_max bids)).length = 1 then
    (((tiedOf bids (list_max bids)).headD 0 : Nat), list_max bids)
  else
    ((tie_break_winner seating (tiedOf bids (list_max bids)) tiebreak_leader_id : Nat),
      list_max bids)

/-- The `for pid, bot in enumerate(self._bots)` loop of `_collect_bids`,
with the running player index explicit. -/
def collect_from (o : Oracle) (turn : Nat) (s : GameState) : Nat → List PlayerState → List Int
  | _, [] => []
  | i, p :: ps => legalize (o.getBid s turn i) p.cash :: collect_from o turn s (i + 1) ps

/-- `_collect_bids`: one legalized bid per seated player. -/
def collect_bids (o : Oracle) (turn : Nat) (s : GameState) : List Int :=
  collect_from o turn s 0 s.players

/-- `_award_trinkets_if_any` inner loop: claim every still-unclaimed
trinket whose objective the winner's gems now satisfy; returns the new
trinket states, the points gained and the claimed objective ids. -/
def award_trinkets (winner_id : Nat) (gems_owned : List Card) :
    List TrinketState → List TrinketState × Int × List String
  | [] => ([], 0, [])
  | t :: rest =>
      let (rest', pts, ids) := award_trinkets winner_id gems_owned rest
      if t.claimed_by = none ∧ objective_satisfied t.objective gems_owned then
        ({ t with claimed_by := some winner_id } :: rest',
          t.objective.points + pts, t.objective.id :: ids)
      else (t :: rest', pts, ids)

/-- The per-player part of `_reveal_on_win`: move the chosen (or first)
unrevealed info card to the revealed pile. -/
def reveal_player (chosen_id : String) (p : PlayerState) : PlayerState :=
  if p.unrevealed_info.isEmpty then p
  else
    let idx :=
      match p.unrevealed_info.findIdx? (fun c => c.id = chosen_id) with
      | some i => i
      | none => 0
    { p with
      unrevealed_info := p.unrevealed_info.eraseIdx idx,
      revealed_info := p.revealed_info ++ [p.unrevealed_info.getD idx ⟨"", .ruby⟩] }

/-- `_reveal_on_win`: applied only when there is a winner. -/
def reveal_on_win (o : Oracle) (turn : Nat) (winner_id : Int) (s : GameState) : GameState :=
  if 0 ≤ winner_id then
    { s with players :=
        (updateAt s.players winner_id.toNat
          (reveal_player (o.chooseReveal s turn winner_id.toNat))) }
  else s

/-- Step 7's universal "winner pays bid" rule of `play()`. -/
def pay_bid (winner_id winning_bid : Int) (players : List PlayerState) : List PlayerState :=
  if 0 ≤ winner_id then
    updateAt players winner_id.toNat (fun p => { p with cash := p.cash - winning_bid })
  else players

/-- The winner (if any) takes the auctioned gems. -/
def give_gems (winner_id : Int) (gems : List Card) (players : List PlayerState) :
    List PlayerState :=
  if 0 ≤ winner_id then
    updateAt players winner_id.toNat (fun p => { p with gems_owned := p.gems_owned ++ gems })
  else players

/-- The loan branch of `play()`: the winner receives the principal at once
and takes a `LoanPosition`. -/
def apply_loan (turn : Nat) (winner_id winning_bid principal : Int)
    (players : List PlayerState) : List PlayerState :=
  if 0 ≤ winner_id then
    updateAt players winner_id.toNat (fun p =>
      { p with cash := p.cash + principal,
               loans := p.loans ++
                 [{ id := "L" ++ toString turn, principal := principal,
                    winning_bid := winning_bid }] })
  else players

/-- The investment branch of `play()`: the winner's bid (already paid) is
locked on a new `InvestmentPosition`. -/
def apply_invest (turn : Nat) (winner_id winning_bid payout : Int)
    (players : List PlayerState) : List PlayerState :=
  if 0 ≤ winner_id then
    updateAt players winner_id.toNat (fun p =>
      { p with investments := p.investments ++
          [{ id := "I" ++ toString turn, payout := payout, locked := winning_bid }] })
  else players

/-- The per-kind effect branch of `play()`, applied to the post-payment
players `players0`; returns the updated state and the auctioned gems. -/
def apply_action (turn : Nat) (act : GameAction) (winner_id winning_bid : Int)
    (s : GameState) (players0 : List PlayerState) : GameState × List Card :=
  match act.kind with
  | .auction1 =>
      match s.upcoming with
      | [] =>
          let ud := refill_upcoming [] s.gem_draw_pile
          ({ s with players := players0, upcoming := ud.1, gem_draw_pile := ud.2 }, [])
      | gem :: rest =>
          let ud := refill_upcoming rest s.gem_draw_pile
          ({ s with players := give_gems winner_id [gem] players0,
                    upcoming := ud.1, gem_draw_pile := ud.2 }, [gem])
  | .auction2 =>
      let ud := refill_upcoming (s.upcoming.drop 2) s.gem_draw_pile
      ({ s with players := give_gems winner_id (s.upcoming.take 2) players0,
                upcoming := ud.1, gem_draw_pile := ud.2 }, s.upcoming.take 2)
  | .loan10 =>
      ({ s with players := apply_loan turn winner_id winning_bid 10 players0 }, [])
  | .loan20 =>
      ({ s with players := apply_loan turn winner_id winning_bid 20 players0 }, [])
  | .invest5 =>
      ({ s with players := apply_invest turn winner_id winning_bid 5 players0 }, [])
  | .invest10 =>
      ({ s with players := apply_invest turn winner_id winning_bid 10 players0 }, [])

/-- The trinket-claim check of `play()` (step 8): award the winner every
newly satisfied unclaimed trinket and credit the points. -/
def apply_claims (winner_id : Int) (s1 : GameState) :
    GameState × List String :=
  if 0 ≤ winner_id then
    let claim := award_trinkets winner_id.toNat
      (s1.players.getD winner_id.toNat default).gems_owned s1.trinkets
    ({ s1 with trinkets := claim.1,
               players := updateAt s1.players winner_id.toNat
                 (fun p => { p with trinket_points := p.trinket_points + claim.2.1 }) },
      claim.2.2)
  else (s1, [])

/-- The resolution part of one `play()` iteration, after the action has
been drawn and the skip checks have passed: bid collection, winner
resolution, bid payment, the per-kind effect, trinket claims, the public
`AuctionResult`, leader/history update and reveal-on-win. -/
def resolveTurn (cfg : EngineConfig) (o : Oracle) (turn : Nat) (act : GameAction)
    (s : GameState) : GameState × AuctionResult :=
  let bids := collect_bids o turn s
  let rw := resolve_winner cfg.discard_on_all_pass s.tiebreak_leader_id s.seating_order bids
  let new_leader := if 0 ≤ rw.1 then rw.1.toNat else s.tiebreak_leader_id
  let afterEffect := apply_action turn act rw.1 rw.2 s (pay_bid rw.1 rw.2 s.players)
  let claimed := apply_claims rw.1 afterEffect.1
  let result : AuctionResult :=
    { turn_index := turn
      action := act
      winner_id := rw.1
      winning_bid := rw.2
      auctioned_gems := afterEffect.2
      new_tiebreak_leader_id := new_leader
      trinkets_claimed :=
        if claimed.2.isEmpty then none else some (String.intercalate "," claimed.2)
      bids := bids }
  let s2 :=
    { claimed.1 with tiebreak_leader_id := new_leader,
                     past_auctions := claimed.1.past_auctions ++ [result] }
  (reveal_on_win o turn rw.1 s2, result)

/-- Outcome of one iteration of the `play()` while-loop: either the loop
breaks or it continues with a new state and (possibly unchanged) turn
index. -/
inductive IterOut
  | ended (s : GameState)
  | next (s : GameState) (turn : Nat)

/-- The draw-then-resolve part of one loop iteration: pop an action from
the draw pile onto the discard, skip gem-starved auctions (without
advancing the turn index), otherwise resolve the turn. -/
def loopDraw (cfg : EngineConfig) (o : Oracle) (s : GameState) (turn : Nat) : IterOut :=
  match popLast s.action_draw_pile with
  | none => .ended s
  | some (act, pile') =>
      let s' := { s with action_draw_pile := pile',
                         action_discard := s.action_discard ++ [act] }
      if act.kind = .auction1 ∧ s'.upcoming.length < 1 then .next s' turn
      else if act.kind = .auction2 ∧ cfg.skip_auction2_if_insufficient_gems ∧
          s'.upcoming.length < 2 then .next s' turn
      else .next (resolveTurn cfg o turn act s').1 (turn + 1)

/-- One full iteration of the `play()` while-loop: the end-of-game check,
the exhausted-action-pile reshuffle (or safety-valve break), then the
draw-and-resolve step. -/
def loopIter (cfg : EngineConfig) (o : Oracle) (s : GameState) (turn : Nat) : IterOut :=
  if s.upcoming.length = 0 ∧ s.gem_draw_pile.length = 0 then .ended s
  else if s.action_draw_pile.isEmpty then
    if s.action_discard.isEmpty then .ended s
    else
      loopDraw cfg o
        { s with action_draw_pile := o.reshuffleActions s s.action_discard,
                 action_discard := [] } turn
  else loopDraw cfg o s turn

/-- The `play()` while-loop, driven by fuel.  Running out of fuel returns
the state unchanged, so every reachable turn boundary is
`runLoop cfg o fuel s₀ 0` for some fuel. -/
def runLoop (cfg : EngineConfig) (o : Oracle) : Nat → GameState → Nat → GameState
  | 0, s, _ => s
  | fuel + 1, s, turn =>
      match loopIter cfg o s turn with
      | .ended s' => s'
      | .next s' turn' => runLoop cfg o fuel s' turn'

/-- The value-chart lookup of `_compute_score`: `mapping[count]` when the
index is within range and `0` otherwise (the Python `count < 0` branch is
vacuous for a natural count). -/
def gem_value (chart : ValueChart) (count : Nat) : Int :=
  if count < chart.mapping.length then chart.mapping.getD count 0 else 0

/-- `_compute_score`: cash, plus gem values at the frozen start-of-game
info census, plus investment payouts and returned deposits, minus loan
principals, plus trinket points. -/
def compute_score (chart : ValueChart) (counts : Suit → Nat) (p : PlayerState) : Int :=
  p.cash
    + (p.gems_owned.map (fun g => gem_value chart (counts g.suit))).sum
    + (p.investments.map (fun i => i.payout + i.locked)).sum
    - (p.loans.map (fun l => l.principal)).sum
    + p.trinket_points

/-- `_finalize`: one `(player_id, name, score)` triple per player, sorted
by descending score (Python's stable `list.sort` with a reversed key). -/
def finalize_scores (s : GameState) : List (Nat × String × Int) :=
  (s.players.map (fun p =>
    (p.player_id, p.name, compute_score s.value_chart s.info_counts_by_suit_at_start p))).mergeSort
    (fun a b => decide (b.2.2 ≤ a.2.2))

/-- `default_value_chart` of `simulator.py`. -/
def default_value_chart : ValueChart :=
  { mapping := [0, 4, 8, 12, 16, 20, 24] }

/-- `itertools.combinations`: all sorted index-order selections of `k`
elements. -/
def combinations {α : Type} : Nat → List α → List (List α)
  | 0, _ => [[]]
  | _ + 1, [] => []
  | k + 1, x :: xs => (combinations k xs).map (x :: ·) ++ combinations (k + 1) xs

/-- `_cards_for_suits` of `simulator.py` (its `prefix` keyword becomes
`pre`). -/
def cards_for_suits (suits : List Suit) (pre : String) : List Card :=
  suits.enum.map (fun p => { id := pre ++ toString p.1, suit := p.2 })

/-- `generate_all_possible_trinkets` of `simulator.py`: 5 same-suit
pendants, 10 two-suit pendants, 10 triples, 5 quadruples, in source
order. -/
def generate_all_possible_trinkets : List TrinketObjective :=
  (allSuits.map (fun s =>
    { id := "P2_SAME_" ++ suitName s
      points := 5
      required_cards := cards_for_suits [s, s] ("pendant_" ++ suitName s ++ "_") }))
  ++ ((combinations 2 allSuits).map (fun ab =>
    let a := ab.getD 0 .ruby
    let b := ab.getD 1 .ruby
    { id := "P2_DIFF_" ++ suitName a ++ "_" ++ suitName b
      points := 5
      required_cards :=
        cards_for_suits [a, b] ("pendant_" ++ suitName a ++ "_" ++ suitName b ++ "_") }))
  ++ ((combinations 3 allSuits).map (fun abc =>
    let a := abc.getD 0 .ruby
    let b := abc.getD 1 .ruby
    let c := abc.getD 2 .ruby
    { id := "T3_" ++ suitName a ++ "_" ++ suitName b ++ "_" ++ suitName c
      points := 10
      required_cards :=
        cards_for_suits [a, b, c]
          ("triple_" ++ suitName a ++ "_" ++ suitName b ++ "_" ++ suitName c ++ "_") }))
  ++ ((combinations 4 allSuits).map (fun abcd =>
    let a := abcd.getD 0 .ruby
    let b := abcd.getD 1 .ruby
    let c := abcd.getD 2 .ruby
    let d := abcd.getD 3 .ruby
    { id := "T4_" ++ suitName a ++ "_" ++ suitName b ++ "_" ++ suitName c ++ "_" ++ suitName d
      points := 15
      required_cards :=
        cards_for_suits [a, b, c, d]
          ("quad_" ++ suitName a ++ "_" ++ suitName b ++ "_" ++ suitName c ++ "_"
            ++ suitName d ++ "_") }))

/-- `default_trinkets` of `simulator.py` called with `seed=None`,
`rng=None` (exactly how `run_pocketrocks_simulation` calls it): the 4-of-30
sample is drawn from `random.Random(None)`, i.e. from OS entropy, modelled
here as an externally supplied sampling function. -/
def default_trinkets (entropy_sample : List TrinketObjective → List TrinketObjective) :
    List TrinketObjective :=
  entropy_sample generate_all_possible_trinkets

/-- The trinket-defaulting step of `run_pocketrocks_simulation`
(`if trinkets is None: trinkets = default_trinkets()`). -/
def simulation_trinkets (trinkets : Option (List TrinketObjective))
    (entropy_sample : List TrinketObjective → List TrinketObjective) :
    List TrinketObjective :=
  match trinkets with
  | some t => t
  | none => default_trinkets entropy_sample

/-! ### Derived notions and concrete instances used by the theorems -/

/-- All gem cards currently held through a player: owned gems plus both
info piles. -/
def gems_of (p : PlayerState) : Nat :=
  p.gems_owned.length + p.revealed_info.length + p.unrevealed_info.length

/-- Total gem cards in existence in a state: facedown pile, upcoming row,
and every player's holdings. -/
def gemCount (s : GameState) : Nat :=
  s.gem_draw_pile.length + s.upcoming.length + (s.players.map gems_of).sum

/-- The points of the trinkets that changed from unclaimed to claimed
between two aligned trinket lists. -/
def newly_claimed_points (old new : List TrinketState) : Int :=
  (((old.zip new).filter (fun q => q.1.claimed_by.isNone && q.2.claimed_by.isSome)).map
    (fun q => q.1.objective.points)).sum

/-- The engine-state fields that no turn ever writes: the value chart, the
start-of-game info census and the seating order. -/
def frozenEq (s s' : GameState) : Prop :=
  s'.value_chart = s.value_chart ∧
    s'.info_counts_by_suit_at_start = s.info_counts_by_suit_at_start ∧
    s'.seating_order = s.seating_order

/-- The state carried by a loop-iteration outcome. -/
def iterState : IterOut → GameState
  | .ended s => s
  | .next s _ => s

/-- No player's cash is negative. -/
def cashInv (s : GameState) : Prop := ∀ p ∈ s.players, 0 ≤ p.cash

instance : Inhabited TrinketState := ⟨⟨⟨"", 0, []⟩, none⟩⟩

/-- `claimed_by` of the `i`-th trinket state. -/
def claimedAt (s : GameState) (i : Nat) : Option Nat :=
  (s.trinkets.getD i default).claimed_by

/-- Objective of the `i`-th trinket state. -/
def objAt (s : GameState) (i : Nat) : TrinketObjective :=
  (s.trinkets.getD i default).objective

/-- `trinket_points` of the `j`-th player. -/
def ptsAt (s : GameState) (j : Nat) : Int :=
  (s.players.getD j default).trinket_points

/-- An oracle for concrete runs: every bot passes, shuffles are identity,
the RNG leader choice takes the first seat. -/
def idOracle : Oracle where
  getBid := fun _ _ _ => some 0
  chooseReveal := fun _ _ _ => ""
  shuffleGems := id
  shuffleActions := id
  reshuffleActions := fun _ l => l
  chooseLeader := fun l => l.headD 0
  botNameOf := fun i => "Bot" ++ toString i

/-- A small 3-player configuration with one gem per suit, one info card
each, a single `AUCTION_1` card and `discard_on_all_pass` enabled. -/
def cexCfg : EngineConfig where
  info_cards_per_player := [(3, 1)]
  starting_cash_by_players := [(3, 30)]
  gems_per_suit := 1
  action_counts := [(.auction1, 1)]
  discard_on_all_pass := true
  skip_auction2_if_insufficient_gems := false

/-- The game state constructed by `engineInit` for `cexCfg`. -/
def cexS0 : GameState :=
  match engineInit idOracle 3 cexCfg default_value_chart [] none with
  | .ok s => s
  | .error _ => default

/-- Like `cexCfg` but with two `AUCTION_1` cards and the all-pass discard
disabled (the engine default). -/
def simCfg : EngineConfig where
  info_cards_per_player := [(3, 1)]
  starting_cash_by_players := [(3, 30)]
  gems_per_suit := 1
  action_counts := [(.auction1, 2)]
  discard_on_all_pass := false
  skip_auction2_if_insufficient_gems := false

/-- An oracle where player 0 always bids 1 and everyone else passes. -/
def simOracle : Oracle where
  getBid := fun _ _ pid => if pid = 0 then some 1 else some 0
  chooseReveal := fun _ _ _ => ""
  shuffleGems := id
  shuffleActions := id
  reshuffleActions := fun _ l => l
  chooseLeader := fun l => l.headD 0
  botNameOf := fun i => "Bot" ++ toString i

/-- One possible output of the OS-entropy `random.Random(None).sample`:
the first four trinkets of the menu. -/
def sampleA : List TrinketObjective → List TrinketObjective := fun l => l.take 4

/-- Another possible output of the same entropy source: four other
trinkets of the menu. -/
def sampleB : List TrinketObjective → List TrinketObjective := fun l => (l.drop 5).take 4

/-- The initial state of a `simCfg` game played with the given trinket
set. -/
def simS0 (ts : List TrinketObjective) : GameState :=
  match engineInit simOracle 3 simCfg default_value_chart ts none with
  | .ok s => s
  | .error _ => default

/-- A full `simCfg` game (6 loop iterations exhaust it) under the given
trinket set. -/
def runWith (ts : List TrinketObjective) : GameState :=
  runLoop simCfg simOracle 6 (simS0 ts) 0

/-- A ruby+sapphire pendant objective. -/
def pendantRS : TrinketObjective :=
  { id := "P", points := 5, required_cards := [⟨"a", .ruby⟩, ⟨"b", .sapphire⟩] }

/-- A hand-built mid-game state: player 0 already owns a sapphire, a ruby
is up for auction, and the pendant is unclaimed. -/
def wState : GameState where
  gem_draw_pile := []
  upcoming := [⟨"G0", .ruby⟩]
  action_draw_pile := []
  action_discard := []
  seating_order := [0, 1, 2]
  tiebreak_leader_id := 0
  trinkets := [{ objective := pendantRS, claimed_by := none }]
  value_chart := default_value_chart
  info_counts_by_suit_at_start := fun _ => 0
  players :=
    [{ player_id := 0, name := "Bot0", cash := 10, gems_owned := [⟨"G1", .sapphire⟩],
       loans := [], investments := [], revealed_info := [], unrevealed_info := [],
       trinket_points := 0 },
     { player_id := 1, name := "Bot1", cash := 10, gems_owned := [], loans := [],
       investments := [], revealed_info := [], unrevealed_info := [], trinket_points := 0 },
     { player_id := 2, name := "Bot2", cash := 10, gems_owned := [], loans := [],
       investments := [], revealed_info := [], unrevealed_info := [], trinket_points := 0 }]
  past_auctions := []

/-- The auction action resolved in the witness turn. -/
def wAct : GameAction := { id := "A", kind := .auction1 }

/-- An investment action for the C9 witness turn. -/
def wInvAct : GameAction := { id := "A", kind := .invest5 }

/-! ### Basic lemmas about the list helpers -/

theorem updateAt_length {α : Type} (l : List α) (i : Nat) (f : α → α) :
    (updateAt l i f).length = l.length := by
  induction l generalizing i with
  | nil => rfl
  | cons x xs ih =>
      cases i with
      | zero => rfl
      | succ n => simp [updateAt, ih]

theorem mem_updateAt {α : Type} {l : List α} {i : Nat} {f : α → α} {q : α} (d : α)
    (h : q ∈ updateAt l i f) :
    q ∈ l ∨ (i < l.length ∧ q = f (l.getD i d)) := by
  induction l generalizing i with
  | nil => simp [updateAt] at h
  | cons x xs ih =>
      cases i with
      | zero =>
          simp only [updateAt, List.mem_cons] at h
          rcases h with h | h
          · exact Or.inr ⟨by simp, by simpa using h⟩
          · exact Or.inl (List.mem_cons_of_mem _ h)
      | succ n =>
          simp only [updateAt, List.mem_cons] at h
          rcases h with h | h
          · exact Or.inl (by simp [h])
          · rcases ih h with h' | ⟨hn, he⟩
            · exact Or.inl (List.mem_cons_of_mem _ h')
            · exact Or.inr ⟨by simpa using Nat.succ_lt_succ hn, by simpa using he⟩

theorem updateAt_getD_self {α : Type} {l : List α} {i : Nat} (f : α → α) (d : α)
    (h : i < l.length) : (updateAt l i f).getD i d = f (l.getD i d) := by
  induction l generalizing i with
  | nil => simp at h
  | cons x xs ih =>
      cases i with
      | zero => rfl
      | succ n => simpa [updateAt] using ih (by simpa using h)

theorem updateAt_getD_ne {α : Type} {l : List α} {i j : Nat} (f : α → α) (d : α)
    (h : j ≠ i) : (updateAt l i f).getD j d = l.getD j d := by
  induction l generalizing i j with
  | nil => rfl
  | cons x xs ih =>
      cases i with
      | zero =>
          cases j with
          | zero => exact absurd rfl h
          | succ m => rfl
      | succ n =>
          cases j with
          | zero => rfl
          | succ m => simpa [updateAt] using ih (fun hc => h (by simp [hc]))

theorem map_updateAt_of_fixed {α β : Type} {l : List α} {i : Nat} {f : α → α}
    (g : α → β) (hf : ∀ x, g (f x) = g x) :
    (updateAt l i f).map g = l.map g := by
  induction l generalizing i with
  | nil => rfl
  | cons x xs ih =>
      cases i with
      | zero => simp [updateAt, hf]
      | succ n => simp [updateAt, ih]

theorem sum_map_updateAt_nat {α : Type} {l : List α} {i : Nat} {f : α → α}
    (g : α → Nat) (d : α) (h : i < l.length) :
    ((updateAt l i f).map g).sum + g (l.getD i d) = (l.map g).sum + g (f (l.getD i d)) := by
  induction l generalizing i with
  | nil => simp at h
  | cons x xs ih =>
      cases i with
      | zero => simp [updateAt]; omega
      | succ n =>
          have := ih (i := n) (by simpa using h)
          simp only [updateAt, List.map_cons, List.sum_cons, List.getD_cons_succ]
          omega

theorem popLast_eq_some {α : Type} {l l' : List α} {x : α}
    (h : popLast l = some (x, l')) : l = l' ++ [x] := by
  unfold popLast at h
  rcases hl : l.getLast? with _ | y
  · rw [hl] at h; exact absurd h (by simp)
  · rw [hl] at h
    simp only [Option.some.injEq, Prod.mk.injEq] at h
    obtain ⟨rfl, rfl⟩ := h
    have hne : l ≠ [] := by rintro rfl; simp at hl
    conv_lhs => rw [← List.dropLast_append_getLast hne]
    rw [List.getLast?_eq_getLast l hne] at hl
    simp at hl
    rw [hl]

theorem popLast_none {α : Type} {l : List α} (h : popLast l = none) : l = [] := by
  unfold popLast at h
  rcases hl : l.getLast? with _ | y
  · exact List.getLast?_eq_none_iff.mp hl
  · rw [hl] at h; exact absurd h (by simp)

/-! ### Lemmas about bid legalisation and the bid maximum -/

theorem legalize_nonneg (raw : Option Int) (cash : Int) : 0 ≤ legalize raw cash := by
  unfold legalize
  split
  · exact le_refl 0
  · next h => push_neg at h; exact h.1

theorem legalize_le_cash (raw : Option Int) {cash : Int} (h : 0 ≤ cash) :
    legalize raw cash ≤ cash := by
  unfold legalize
  split
  · exact h
  · next h' => push_neg at h'; exact h'.2

theorem legalize_none (cash : Int) : legalize none cash = 0 := by
  unfold legalize
  split <;> rfl

theorem legalize_illegal {b cash : Int} (h : b < 0 ∨ b > cash) :
    legalize (some b) cash = 0 := by
  unfold legalize
  split
  · rfl
  · next h' => exact absurd (by simpa using h) h'

theorem le_foldl_max_init (l : List Int) (a : Int) : a ≤ l.foldl max a := by
  induction l generalizing a with
  | nil => simp
  | cons x xs ih => exact le_trans (le_max_left a x) (ih (max a x))

theorem mem_le_foldl_max {l : List Int} {b : Int} (h : b ∈ l) (a : Int) :
    b ≤ l.foldl max a := by
  induction l generalizing a with
  | nil => simp at h
  | cons x xs ih =>
      rcases List.mem_cons.mp h with rfl | h'
      · exact le_trans (le_max_right a b) (le_foldl_max_init xs _)
      · exact ih h' _

theorem foldl_max_mem (l : List Int) (a : Int) : l.foldl max a ∈ l ∨ l.foldl max a = a := by
  induction l generalizing a with
  | nil => simp
  | cons x xs ih =>
      simp only [List.foldl_cons]
      rcases ih (max a x) with h | h
      · exact Or.inl (List.mem_cons_of_mem _ h)
      · rcases max_cases a x with ⟨he, _⟩ | ⟨he, _⟩
        · exact Or.inr (h.trans he)
        · exact Or.inl (by rw [h, he]; exact List.mem_cons_self x xs)

theorem le_list_max {l : List Int} {b : Int} (h : b ∈ l) : b ≤ list_max l := by
  cases l with
  | nil => simp at h
  | cons x xs =>
      simp only [list_max]
      rcases List.mem_cons.mp h with rfl | h'
      · exact le_foldl_max_init xs b
      · exact mem_le_foldl_max h' x

theorem list_max_mem {l : List Int} (h : l ≠ []) : list_max l ∈ l := by
  cases l with
  | nil => exact absurd rfl h
  | cons x xs =>
      simp only [list_max]
      rcases foldl_max_mem xs x with h' | h'
      · exact List.mem_cons_of_mem _ h'
      · rw [h']; exact List.mem_cons_self x xs

theorem list_max_eq_zero_iff {l : List Int} (h : ∀ b ∈ l, 0 ≤ b) (hne : l ≠ []) :
    (list_max l = 0 ↔ ∀ b ∈ l, b = 0) := by
  constructor
  · intro h0 b hb
    exact le_antisymm (h0 ▸ le_list_max hb) (h b hb)
  · intro hall
    exact hall _ (list_max_mem hne)

/-! ### Lemmas about tied indices, tie-break and winner resolution -/

theorem mem_tiedFrom {bids : List Int} {m : Int} {i j : Nat} :
    j ∈ tiedFrom i bids m ↔ ∃ k, k < bids.length ∧ j = i + k ∧ bids.getD k 0 = m := by
  induction bids generalizing i with
  | nil => simp [tiedFrom]
  | cons b bs ih =>
      simp only [tiedFrom]
      constructor
      · intro h
        by_cases hb : b = m
        · rw [if_pos hb] at h
          rcases List.mem_cons.mp h with rfl | h'
          · exact ⟨0, by simp, by simp, by simpa using hb⟩
          · obtain ⟨k, hk, rfl, hv⟩ := ih.mp h'
            exact ⟨k + 1, by simpa using Nat.succ_lt_succ hk, by omega, by simpa using hv⟩
        · rw [if_neg hb] at h
          obtain ⟨k, hk, rfl, hv⟩ := ih.mp h
          exact ⟨k + 1, by simpa using Nat.succ_lt_succ hk, by omega, by simpa using hv⟩
      · rintro ⟨k, hk, rfl, hv⟩
        cases k with
        | zero =>
            simp only [List.getD_cons_zero] at hv
            rw [if_pos hv]
            simp
        | succ n =>
            have hmem : i + (n + 1) ∈ tiedFrom (i + 1) bs m :=
              ih.mpr ⟨n, by simpa using hk, by omega, by simpa using hv⟩
            by_cases hb : b = m
            · rw [if_pos hb]; exact List.mem_cons_of_mem _ hmem
            · rw [if_neg hb]; exact hmem

theorem mem_tiedOf {bids : List Int} {m : Int} {j : Nat} :
    j ∈ tiedOf bids m ↔ j < bids.length ∧ bids.getD j 0 = m := by
  unfold tiedOf
  rw [mem_tiedFrom]
  constructor
  · rintro ⟨k, hk, rfl, hv⟩; exact ⟨by simpa using hk, by simpa using hv⟩
  · rintro ⟨hj, hv⟩; exact ⟨j, hj, by simp, hv⟩

theorem tiedOf_max_ne_nil {bids : List Int} (h : bids ≠ []) :
    tiedOf bids (list_max bids) ≠ [] := by
  obtain ⟨k, hk, hv⟩ := List.mem_iff_getElem.mp (list_max_mem h)
  have : k ∈ tiedOf bids (list_max bids) :=
    mem_tiedOf.mpr ⟨hk, by rw [List.getD_eq_getElem _ _ hk]; exact hv⟩
  intro hc
  rw [hc] at this
  simp at this

theorem headD_mem {l : List Nat} (h : l ≠ []) (d : Nat) : l.headD d ∈ l := by
  cases l with
  | nil => exact absurd rfl h
  | cons x xs => simp

theorem scan_pick_mem {scan tied : List Nat} (h : tied ≠ []) : scan_pick scan tied ∈ tied := by
  unfold scan_pick
  rcases hf : scan.find? (fun pid => tied.contains pid) with _ | pid
  · exact headD_mem h 0
  · simpa using List.find?_some hf

theorem tie_break_winner_mem {seating tied : List Nat} {leader : Nat} (h : tied ≠ []) :
    tie_break_winner seating tied leader ∈ tied :=
  scan_pick_mem h

theorem resolve_winner_neg {discard : Bool} {leader : Nat} {seating : List Nat}
    {bids : List Int} :
    (resolve_winner discard leader seating bids).1 = -1 ↔
      (list_max bids = 0 ∧ discard = true) := by
  unfold resolve_winner
  split
  · next h => simpa using h
  · next h =>
      split
      · simp only []
        constructor
        · intro hc; omega
        · intro hc; exact absurd hc h
      · simp only []
        constructor
        · intro hc; omega
        · intro hc; exact absurd hc h

theorem resolve_winner_pos {discard : Bool} {leader : Nat} {seating : List Nat}
    {bids : List Int} (hne : bids ≠ [])
    (h : (resolve_winner discard leader seating bids).1 ≠ -1) :
    0 ≤ (resolve_winner discard leader seating bids).1 ∧
      (resolve_winner discard leader seating bids).1.toNat ∈ tiedOf bids (list_max bids) ∧
      (resolve_winner discard leader seating bids).2 = list_max bids := by
  have hnd : ¬ (list_max bids = 0 ∧ discard = true) := fun hc => h (resolve_winner_neg.mpr hc)
  have htied := tiedOf_max_ne_nil hne
  unfold resolve_winner
  split
  · next hc => exact absurd hc hnd
  · next hc =>
      split
      · refine ⟨by positivity, ?_, rfl⟩
        simpa using headD_mem htied 0
      · refine ⟨by positivity, ?_, rfl⟩
        simpa using tie_break_winner_mem (h := htied)

/-- `find?` returns the first element satisfying the predicate: there is a
position holding the result, and every earlier position fails the
predicate. -/
theorem find?_first {α : Type} (p : α → Bool) (d : α) :
    ∀ (l : List α) (x : α), l.find? p = some x →
      ∃ i, i < l.length ∧ l.getD i d = x ∧ p x = true ∧
        ∀ j, j < i → p (l.getD j d) = false := by
  intro l
  induction l with
  | nil => intro x h; simp at h
  | cons a as ih =>
      intro x h
      rcases ha : p a with _ | _
      · rw [List.find?_cons_of_neg _ (by simp [ha])] at h
        obtain ⟨i, hi, hg, hp, hfirst⟩ := ih x h
        refine ⟨i + 1, by simpa using Nat.succ_lt_succ hi, by simpa using hg, hp, ?_⟩
        intro j hj
        cases j with
        | zero => simpa using ha
        | succ m => simpa using hfirst m (by omega)
      · rw [List.find?_cons_of_pos _ ha] at h
        simp only [Option.some.injEq] at h
        exact ⟨0, by simp, by simpa using h, h ▸ ha, fun j hj => by omega⟩

/-! ### Lemmas about bid collection -/

theorem collect_from_length (o : Oracle) (turn : Nat) (s : GameState) :
    ∀ (ps : List PlayerState) (i : Nat), (collect_from o turn s i ps).length = ps.length := by
  intro ps
  induction ps with
  | nil => intro i; rfl
  | cons p rest ih => intro i; simp [collect_from, ih]

theorem collect_bids_length (o : Oracle) (turn : Nat) (s : GameState) :
    (collect_bids o turn s).length = s.players.length :=
  collect_from_length o turn s s.players 0

theorem collect_from_getD (o : Oracle) (turn : Nat) (s : GameState) :
    ∀ (ps : List PlayerState) (i k : Nat), k < ps.length →
      (collect_from o turn s i ps).getD k 0 =
        legalize (o.getBid s turn (i + k)) ((ps.getD k default).cash) := by
  intro ps
  induction ps with
  | nil => intro i k hk; simp at hk
  | cons p rest ih =>
      intro i k hk
      cases k with
      | zero => simp [collect_from]
      | succ m =>
          simp only [collect_from, List.getD_cons_succ]
          rw [ih (i + 1) m (by simpa using hk)]
          have : i + 1 + m = i + (m + 1) := by omega
          rw [this]

theorem collect_bids_getD (o : Oracle) (turn : Nat) (s : GameState) {k : Nat}
    (hk : k < s.players.length) :
    (collect_bids o turn s).getD k 0 =
      legalize (o.getBid s turn k) ((s.players.getD k default).cash) := by
  simpa using collect_from_getD o turn s s.players 0 k hk

theorem collect_from_nonneg (o : Oracle) (turn : Nat) (s : GameState) :
    ∀ (ps : List PlayerState) (i : Nat), ∀ b ∈ collect_from o turn s i ps, 0 ≤ b := by
  intro ps
  induction ps with
  | nil => intro i b hb; simp [collect_from] at hb
  | cons p rest ih =>
      intro i b hb
      simp only [collect_from, List.mem_cons] at hb
      rcases hb with rfl | hb
      · exact legalize_nonneg _ _
      · exact ih _ _ hb

theorem collect_bids_nonneg (o : Oracle) (turn : Nat) (s : GameState) :
    ∀ b ∈ collect_bids o turn s, 0 ≤ b :=
  collect_from_nonneg o turn s s.players 0

/-! ### Gem accounting and trinket-award lemmas -/

theorem award_trinkets_length (w : Nat) (g : List Card) (ts : List TrinketState) :
    (award_trinkets w g ts).1.length = ts.length := by
  induction ts with
  | nil => rfl
  | cons t rest ih =>
      simp only [award_trinkets]
      split <;> simp [ih]

theorem award_trinkets_getD (w : Nat) (g : List Card) (ts : List TrinketState)
    (d : TrinketState) {i : Nat} (hi : i < ts.length) :
    (award_trinkets w g ts).1.getD i d =
      (if (ts.getD i d).claimed_by = none ∧
          objective_satisfied (ts.getD i d).objective g then
        { ts.getD i d with claimed_by := some w }
      else ts.getD i d) := by
  induction ts generalizing i with
  | nil => simp at hi
  | cons t rest ih =>
      cases i with
      | zero =>
          simp only [award_trinkets, List.getD_cons_zero]
          split
          · next h => simp [h]
          · next h => simp [if_neg h]
      | succ n =>
          have := ih (by simpa using hi)
          simp only [award_trinkets, List.getD_cons_succ]
          split <;> simpa using this

theorem award_trinkets_points (w : Nat) (g : List Card) (ts : List TrinketState) :
    (award_trinkets w g ts).2.1 = newly_claimed_points ts (award_trinkets w g ts).1 := by
  induction ts with
  | nil => rfl
  | cons t rest ih =>
      simp only [award_trinkets]
      split
      · next h =>
          simp only [newly_claimed_points, List.zip_cons_cons, List.filter_cons,
            h.1, Option.isNone_none, Bool.true_and, Option.isSome_some,
            List.map_cons, List.sum_cons]
          rw [ih]
          rfl
      · next h =>
          simp only [newly_claimed_points, List.zip_cons_cons, List.filter_cons]
          rcases hc : t.claimed_by with _ | v
          · have hns : ¬ objective_satisfied t.objective g := by
              intro hs; exact h ⟨hc, hs⟩
            simp only [hc, Option.isNone_none, Bool.true_and, Option.isSome_none]
            rw [ih]
            rfl
          · simp only [hc, Option.isNone_some, Bool.false_and]
            rw [ih]
            rfl

theorem getD_of_le {α : Type} {l : List α} {i : Nat} (d : α) (h : l.length ≤ i) :
    l.getD i d = d := by
  induction l generalizing i with
  | nil => cases i <;> rfl
  | cons x xs ih =>
      cases i with
      | zero => simp at h
      | succ n => simpa using ih (by simpa using h)

theorem award_trinkets_mono (w : Nat) (g : List Card) (ts : List TrinketState)
    (d : TrinketState) {i : Nat} {v : Nat}
    (h : (ts.getD i d).claimed_by = some v) :
    ((award_trinkets w g ts).1.getD i d).claimed_by = some v := by
  by_cases hi : i < ts.length
  · rw [award_trinkets_getD w g ts d hi]
    split
    · next hc => rw [h] at hc; exact absurd hc.1 (by simp)
    · exact h
  · rw [getD_of_le d (by rw [award_trinkets_length]; omega)]
    rw [getD_of_le d (by omega)] at h
    exact h

theorem award_trinkets_new_claim (w : Nat) (g : List Card) (ts : List TrinketState)
    (d : TrinketState) {i : Nat}
    (h : (ts.getD i d).claimed_by = none)
    (h' : ((award_trinkets w g ts).1.getD i d).claimed_by ≠ none) :
    ((award_trinkets w g ts).1.getD i d).claimed_by = some w := by
  by_cases hi : i < ts.length
  · rw [award_trinkets_getD w g ts d hi] at h' ⊢
    split
    · rfl
    · next hc =>
        rw [if_neg hc] at h'
        exact absurd h h'
  · rw [getD_of_le d (by rw [award_trinkets_length]; omega)] at h'
    rw [getD_of_le d (by omega)] at h
    exact absurd h h'

theorem award_trinkets_objective (w : Nat) (g : List Card) (ts : List TrinketState)
    (d : TrinketState) (i : Nat) :
    ((award_trinkets w g ts).1.getD i d).objective = (ts.getD i d).objective := by
  by_cases hi : i < ts.length
  · rw [award_trinkets_getD w g ts d hi]
    split <;> rfl
  · rw [getD_of_le d (by rw [award_trinkets_length]; omega),
      getD_of_le d (by omega)]

/-! ### Refill and reveal lemmas -/

theorem refill_go_len :
    ∀ (fuel : Nat) (u p : List Card),
      (refill_go fuel u p).1.length + (refill_go fuel u p).2.length =
        u.length + p.length := by
  intro fuel
  induction fuel with
  | zero => intro u p; rfl
  | succ m ih =>
      intro u p
      simp only [refill_go]
      split
      · rcases hp : popLast p with _ | cd
        · rfl
        · rw [ih]
          have hpl := popLast_eq_some hp
          rw [hpl]
          simp only [List.length_append, List.length_cons, List.length_nil]
          omega
      · rfl

theorem refill_upcoming_len (upcoming pile : List Card) :
    (refill_upcoming upcoming pile).1.length + (refill_upcoming upcoming pile).2.length =
      upcoming.length + pile.length :=
  refill_go_len pile.length upcoming pile

theorem findIdx?_lt_of_start {α : Type} {p : α → Bool} :
    ∀ {l : List α} {j i : Nat}, l.findIdx? p j = some i → i < j + l.length := by
  intro l
  induction l with
  | nil => intro j i h; simp [List.findIdx?] at h
  | cons x xs ih =>
      intro j i h
      rw [List.findIdx?_cons] at h
      split at h
      · simp only [Option.some.injEq] at h
        simp only [List.length_cons]
        omega
      · have := ih h
        simp only [List.length_cons]
        omega

theorem findIdx?_lt_length {α : Type} {p : α → Bool} {l : List α} {i : Nat}
    (h : l.findIdx? p = some i) : i < l.length := by
  simpa using findIdx?_lt_of_start h

theorem reveal_player_gems (c : String) (p : PlayerState) :
    gems_of (reveal_player c p) = gems_of p := by
  unfold reveal_player
  split
  · rfl
  · next hne =>
      have hlen : 0 < p.unrevealed_info.length := by
        cases hl : p.unrevealed_info with
        | nil => rw [hl] at hne; simp at hne
        | cons a as => simp [hl]
      rcases hf : p.unrevealed_info.findIdx? (fun c' => c'.id = c) with _ | i
      · have h0 := List.length_eraseIdx_add_one (l := p.unrevealed_info) (i := 0) hlen
        simp only [gems_of, hf, List.length_append, List.length_cons, List.length_nil]
        omega
      · have hi := findIdx?_lt_length hf
        have h0 := List.length_eraseIdx_add_one hi
        simp only [gems_of, hf, List.length_append, List.length_cons, List.length_nil]
        omega

theorem reveal_player_cash (c : String) (p : PlayerState) :
    (reveal_player c p).cash = p.cash := by
  unfold reveal_player; split <;> rfl

theorem reveal_player_gems_owned (c : String) (p : PlayerState) :
    (reveal_player c p).gems_owned = p.gems_owned := by
  unfold reveal_player; split <;> rfl

theorem reveal_player_loans (c : String) (p : PlayerState) :
    (reveal_player c p).loans = p.loans := by
  unfold reveal_player; split <;> rfl

theorem reveal_player_investments (c : String) (p : PlayerState) :
    (reveal_player c p).investments = p.investments := by
  unfold reveal_player; split <;> rfl

theorem reveal_player_trinket_points (c : String) (p : PlayerState) :
    (reveal_player c p).trinket_points = p.trinket_points := by
  unfold reveal_player; split <;> rfl

/-! ### Generic update helpers and the frozen-field relation -/

theorem getD_mem {α : Type} {l : List α} {i : Nat} (d : α) (h : i < l.length) :
    l.getD i d ∈ l := by
  rw [List.getD_eq_getElem l d h]
  exact List.getElem_mem h

theorem updateAt_ge_length {α : Type} {l : List α} {i : Nat} (f : α → α)
    (h : l.length ≤ i) : updateAt l i f = l := by
  induction l generalizing i with
  | nil => rfl
  | cons x xs ih =>
      cases i with
      | zero => simp at h
      | succ n => simp only [updateAt]; rw [ih (by simpa using h)]

theorem forall_mem_updateAt {α : Type} [Inhabited α] {l : List α} {i : Nat} {f : α → α}
    {P : α → Prop} (hl : ∀ p ∈ l, P p) (hf : ∀ p, P p → P (f p)) :
    ∀ q ∈ updateAt l i f, P q := by
  by_cases hi : i < l.length
  · intro q hq
    rcases mem_updateAt default hq with h | ⟨_, rfl⟩
    · exact hl q h
    · exact hf _ (hl _ (getD_mem default hi))
  · rw [updateAt_ge_length f (le_of_not_lt hi)]
    exact hl

theorem frozenEq_refl (s : GameState) : frozenEq s s := ⟨rfl, rfl, rfl⟩

theorem frozenEq_trans {a b c : GameState} (h1 : frozenEq a b) (h2 : frozenEq b c) :
    frozenEq a c :=
  ⟨h2.1.trans h1.1, h2.2.1.trans h1.2.1, h2.2.2.trans h1.2.2⟩

/-! ### Stage lemmas: which fields each `play()` stage touches -/

theorem pay_bid_length (w wb : Int) (ps : List PlayerState) :
    (pay_bid w wb ps).length = ps.length := by
  unfold pay_bid; split <;> simp [updateAt_length]

theorem give_gems_length (w : Int) (g : List Card) (ps : List PlayerState) :
    (give_gems w g ps).length = ps.length := by
  unfold give_gems; split <;> simp [updateAt_length]

theorem apply_loan_length (t : Nat) (w wb pr : Int) (ps : List PlayerState) :
    (apply_loan t w wb pr ps).length = ps.length := by
  unfold apply_loan; split <;> simp [updateAt_length]

theorem apply_invest_length (t : Nat) (w wb pay : Int) (ps : List PlayerState) :
    (apply_invest t w wb pay ps).length = ps.length := by
  unfold apply_invest; split <;> simp [updateAt_length]

theorem apply_action_value_chart (t : Nat) (act : GameAction) (w wb : Int) (s : GameState)
    (ps : List PlayerState) : (apply_action t act w wb s ps).1.value_chart = s.value_chart := by
  unfold apply_action
  cases act.kind
  case auction1 => cases s.upcoming <;> rfl
  all_goals rfl

theorem apply_action_info_counts (t : Nat) (act : GameAction) (w wb : Int) (s : GameState)
    (ps : List PlayerState) :
    (apply_action t act w wb s ps).1.info_counts_by_suit_at_start =
      s.info_counts_by_suit_at_start := by
  unfold apply_action
  cases act.kind
  case auction1 => cases s.upcoming <;> rfl
  all_goals rfl

theorem apply_action_seating (t : Nat) (act : GameAction) (w wb : Int) (s : GameState)
    (ps : List PlayerState) :
    (apply_action t act w wb s ps).1.seating_order = s.seating_order := by
  unfold apply_action
  cases act.kind
  case auction1 => cases s.upcoming <;> rfl
  all_goals rfl

theorem apply_action_trinkets (t : Nat) (act : GameAction) (w wb : Int) (s : GameState)
    (ps : List PlayerState) : (apply_action t act w wb s ps).1.trinkets = s.trinkets := by
  unfold apply_action
  cases act.kind
  case auction1 => cases s.upcoming <;> rfl
  all_goals rfl

theorem apply_action_leader (t : Nat) (act : GameAction) (w wb : Int) (s : GameState)
    (ps : List PlayerState) :
    (apply_action t act w wb s ps).1.tiebreak_leader_id = s.tiebreak_leader_id := by
  unfold apply_action
  cases act.kind
  case auction1 => cases s.upcoming <;> rfl
  all_goals rfl

theorem apply_action_past (t : Nat) (act : GameAction) (w wb : Int) (s : GameState)
    (ps : List PlayerState) :
    (apply_action t act w wb s ps).1.past_auctions = s.past_auctions := by
  unfold apply_action
  cases act.kind
  case auction1 => cases s.upcoming <;> rfl
  all_goals rfl

theorem apply_action_players_length (t : Nat) (act : GameAction) (w wb : Int) (s : GameState)
    (ps : List PlayerState) : (apply_action t act w wb s ps).1.players.length = ps.length := by
  unfold apply_action
  cases act.kind
  case auction1 =>
      cases s.upcoming <;> simp [give_gems_length]
  all_goals simp [give_gems_length, apply_loan_length, apply_invest_length]

theorem apply_claims_value_chart (w : Int) (s1 : GameState) :
    (apply_claims w s1).1.value_chart = s1.value_chart := by
  unfold apply_claims; split <;> rfl

theorem apply_claims_info_counts (w : Int) (s1 : GameState) :
    (apply_claims w s1).1.info_counts_by_suit_at_start = s1.info_counts_by_suit_at_start := by
  unfold apply_claims; split <;> rfl

theorem apply_claims_seating (w : Int) (s1 : GameState) :
    (apply_claims w s1).1.seating_order = s1.seating_order := by
  unfold apply_claims; split <;> rfl

theorem apply_claims_upcoming (w : Int) (s1 : GameState) :
    (apply_claims w s1).1.upcoming = s1.upcoming := by
  unfold apply_claims; split <;> rfl

theorem apply_claims_pile (w : Int) (s1 : GameState) :
    (apply_claims w s1).1.gem_draw_pile = s1.gem_draw_pile := by
  unfold apply_claims; split <;> rfl

theorem apply_claims_players_length (w : Int) (s1 : GameState) :
    (apply_claims w s1).1.players.length = s1.players.length := by
  unfold apply_claims; split <;> simp [updateAt_length]

theorem reveal_on_win_value_chart (o : Oracle) (t : Nat) (w : Int) (s : GameState) :
    (reveal_on_win o t w s).value_chart = s.value_chart := by
  unfold reveal_on_win; split <;> rfl

theorem reveal_on_win_info_counts (o : Oracle) (t : Nat) (w : Int) (s : GameState) :
    (reveal_on_win o t w s).info_counts_by_suit_at_start = s.info_counts_by_suit_at_start := by
  unfold reveal_on_win; split <;> rfl

theorem reveal_on_win_seating (o : Oracle) (t : Nat) (w : Int) (s : GameState) :
    (reveal_on_win o t w s).seating_order = s.seating_order := by
  unfold reveal_on_win; split <;> rfl

theorem reveal_on_win_upcoming (o : Oracle) (t : Nat) (w : Int) (s : GameState) :
    (reveal_on_win o t w s).upcoming = s.upcoming := by
  unfold reveal_on_win; split <;> rfl

theorem reveal_on_win_pile (o : Oracle) (t : Nat) (w : Int) (s : GameState) :
    (reveal_on_win o t w s).gem_draw_pile = s.gem_draw_pile := by
  unfold reveal_on_win; split <;> rfl

theorem reveal_on_win_trinkets (o : Oracle) (t : Nat) (w : Int) (s : GameState) :
    (reveal_on_win o t w s).trinkets = s.trinkets := by
  unfold reveal_on_win; split <;> rfl

theorem reveal_on_win_leader (o : Oracle) (t : Nat) (w : Int) (s : GameState) :
    (reveal_on_win o t w s).tiebreak_leader_id = s.tiebreak_leader_id := by
  unfold reveal_on_win; split <;> rfl

theorem reveal_on_win_past (o : Oracle) (t : Nat) (w : Int) (s : GameState) :
    (reveal_on_win o t w s).past_auctions = s.past_auctions := by
  unfold reveal_on_win; split <;> rfl

theorem reveal_on_win_players_length (o : Oracle) (t : Nat) (w : Int) (s : GameState) :
    (reveal_on_win o t w s).players.length = s.players.length := by
  unfold reveal_on_win; split <;> simp [updateAt_length]

theorem resolveTurn_frozen (cfg : EngineConfig) (o : Oracle) (t : Nat) (act : GameAction)
    (s : GameState) : frozenEq s (resolveTurn cfg o t act s).1 := by
  refine ⟨?_, ?_, ?_⟩ <;>
    simp only [resolveTurn, reveal_on_win_value_chart, reveal_on_win_info_counts,
      reveal_on_win_seating, apply_claims_value_chart, apply_claims_info_counts,
      apply_claims_seating, apply_action_value_chart, apply_action_info_counts,
      apply_action_seating]

theorem resolveTurn_players_length (cfg : EngineConfig) (o : Oracle) (t : Nat)
    (act : GameAction) (s : GameState) :
    (resolveTurn cfg o t act s).1.players.length = s.players.length := by
  simp only [resolveTurn, reveal_on_win_players_length, apply_claims_players_length,
    apply_action_players_length, pay_bid_length]

theorem loopDraw_frozen (cfg : EngineConfig) (o : Oracle) (s : GameState) (t : Nat) :
    frozenEq s (iterState (loopDraw cfg o s t)) := by
  unfold loopDraw
  rcases popLast s.action_draw_pile with _ | ⟨act, pile'⟩
  · exact frozenEq_refl s
  · simp only []
    split
    · exact frozenEq_refl _
    · split
      · exact frozenEq_refl _
      · exact resolveTurn_frozen cfg o t act _

theorem loopIter_frozen (cfg : EngineConfig) (o : Oracle) (s : GameState) (t : Nat) :
    frozenEq s (iterState (loopIter cfg o s t)) := by
  unfold loopIter
  split
  · exact frozenEq_refl s
  · split
    · split
      · exact frozenEq_refl s
      · exact loopDraw_frozen cfg o _ t
    · exact loopDraw_frozen cfg o s t

theorem runLoop_frozen (cfg : EngineConfig) (o : Oracle) :
    ∀ (fuel : Nat) (s : GameState) (t : Nat), frozenEq s (runLoop cfg o fuel s t) := by
  intro fuel
  induction fuel with
  | zero => intro s t; exact frozenEq_refl s
  | succ n ih =>
      intro s t
      unfold runLoop
      cases h : loopIter cfg o s t with
      | ended s' =>
          have := loopIter_frozen cfg o s t
          rw [h] at this
          exact this
      | next s' t' =>
          have h1 := loopIter_frozen cfg o s t
          rw [h] at h1
          exact frozenEq_trans h1 (ih s' t')

theorem loopDraw_players_length (cfg : EngineConfig) (o : Oracle) (s : GameState) (t : Nat) :
    (iterState (loopDraw cfg o s t)).players.length = s.players.length := by
  unfold loopDraw
  rcases popLast s.action_draw_pile with _ | ⟨act, pile'⟩
  · rfl
  · simp only []
    split
    · rfl
    · split
      · rfl
      · exact resolveTurn_players_length cfg o t act _

theorem loopIter_players_length (cfg : EngineConfig) (o : Oracle) (s : GameState) (t : Nat) :
    (iterState (loopIter cfg o s t)).players.length = s.players.length := by
  unfold loopIter
  split
  · rfl
  · split
    · split
      · rfl
      · exact loopDraw_players_length cfg o _ t
    · exact loopDraw_players_length cfg o s t

theorem runLoop_players_length (cfg : EngineConfig) (o : Oracle) :
    ∀ (fuel : Nat) (s : GameState) (t : Nat),
      (runLoop cfg o fuel s t).players.length = s.players.length := by
  intro fuel
  induction fuel with
  | zero => intro s t; rfl
  | succ n ih =>
      intro s t
      unfold runLoop
      cases h : loopIter cfg o s t with
      | ended s' =>
          have := loopIter_players_length cfg o s t
          rw [h] at this
          exact this
      | next s' t' =>
          have h1 := loopIter_players_length cfg o s t
          rw [h] at h1
          rw [ih s' t']
          exact h1

/-! ### The cash non-negativity invariant (claim C4) -/

/-- The winner of a resolved auction always pays at most their own cash:
the winning bid equals the winner's own legalized bid, which was clamped
to their cash. -/
theorem winning_bid_le_winner_cash (cfg : EngineConfig) (o : Oracle) (t : Nat)
    (s : GameState) (hinv : cashInv s) (hne : s.players ≠ [])
    (hw : 0 ≤ (resolve_winner cfg.discard_on_all_pass s.tiebreak_leader_id s.seating_order
      (collect_bids o t s)).1) :
    (resolve_winner cfg.discard_on_all_pass s.tiebreak_leader_id s.seating_order
        (collect_bids o t s)).1.toNat < s.players.length ∧
      (resolve_winner cfg.discard_on_all_pass s.tiebreak_leader_id s.seating_order
          (collect_bids o t s)).2 ≤
        (s.players.getD (resolve_winner cfg.discard_on_all_pass s.tiebreak_leader_id
          s.seating_order (collect_bids o t s)).1.toNat default).cash ∧
      0 ≤ (resolve_winner cfg.discard_on_all_pass s.tiebreak_leader_id s.seating_order
        (collect_bids o t s)).2 := by
  have hbne : collect_bids o t s ≠ [] := by
    intro hc
    have := collect_bids_length o t s
    rw [hc] at this
    exact hne (List.length_eq_zero.mp this.symm)
  have hnneg : (resolve_winner cfg.discard_on_all_pass s.tiebreak_leader_id s.seating_order
      (collect_bids o t s)).1 ≠ -1 := by omega
  obtain ⟨_, hmem, hwb⟩ := resolve_winner_pos hbne hnneg
  obtain ⟨hlt, hval⟩ := mem_tiedOf.mp hmem
  rw [collect_bids_length o t s] at hlt
  have hcash : 0 ≤ (s.players.getD (resolve_winner cfg.discard_on_all_pass
      s.tiebreak_leader_id s.seating_order (collect_bids o t s)).1.toNat default).cash :=
    hinv _ (getD_mem default hlt)
  have hbid := collect_bids_getD o t s hlt
  refine ⟨hlt, ?_, ?_⟩
  · rw [hwb, ← hval, hbid]
    exact legalize_le_cash _ hcash
  · rw [hwb, ← hval, hbid]
    exact legalize_nonneg _ _

theorem cash_nonneg_give_gems {w : Int} {g : List Card} {ps : List PlayerState}
    (h0 : ∀ p ∈ ps, 0 ≤ p.cash) : ∀ p ∈ give_gems w g ps, 0 ≤ p.cash := by
  unfold give_gems
  split
  · exact forall_mem_updateAt h0 (fun p hp => hp)
  · exact h0

theorem cash_nonneg_apply_loan {t : Nat} {w wb pr : Int} {ps : List PlayerState}
    (hpr : 0 ≤ pr) (h0 : ∀ p ∈ ps, 0 ≤ p.cash) :
    ∀ p ∈ apply_loan t w wb pr ps, 0 ≤ p.cash := by
  unfold apply_loan
  split
  · exact forall_mem_updateAt h0 (fun p hp => by simp only []; omega)
  · exact h0

theorem cash_nonneg_apply_invest {t : Nat} {w wb pay : Int} {ps : List PlayerState}
    (h0 : ∀ p ∈ ps, 0 ≤ p.cash) : ∀ p ∈ apply_invest t w wb pay ps, 0 ≤ p.cash := by
  unfold apply_invest
  split
  · exact forall_mem_updateAt h0 (fun p hp => hp)
  · exact h0

theorem cash_nonneg_apply_action {t : Nat} {act : GameAction} {w wb : Int} {s : GameState}
    {ps : List PlayerState} (h0 : ∀ p ∈ ps, 0 ≤ p.cash) :
    ∀ p ∈ (apply_action t act w wb s ps).1.players, 0 ≤ p.cash := by
  unfold apply_action
  cases act.kind
  case auction1 =>
      cases s.upcoming
      · simpa using h0
      · simpa using cash_nonneg_give_gems h0
  case auction2 => simpa using cash_nonneg_give_gems h0
  case loan10 => simpa using cash_nonneg_apply_loan (by omega) h0
  case loan20 => simpa using cash_nonneg_apply_loan (by omega) h0
  case invest5 => simpa using cash_nonneg_apply_invest h0
  case invest10 => simpa using cash_nonneg_apply_invest h0

theorem cash_nonneg_apply_claims {w : Int} {s1 : GameState}
    (h0 : ∀ p ∈ s1.players, 0 ≤ p.cash) :
    ∀ p ∈ (apply_claims w s1).1.players, 0 ≤ p.cash := by
  unfold apply_claims
  split
  · exact forall_mem_updateAt h0 (fun p hp => hp)
  · exact h0

theorem cash_nonneg_reveal_players {c : String} {i : Nat} {ps : List PlayerState}
    (h0 : ∀ p ∈ ps, 0 ≤ p.cash) :
    ∀ p ∈ updateAt ps i (reveal_player c), 0 ≤ p.cash :=
  forall_mem_updateAt h0 (fun p hp => by rw [reveal_player_cash]; exact hp)

theorem resolveTurn_cashInv (cfg : EngineConfig) (o : Oracle) (t : Nat) (act : GameAction)
    (s : GameState) (hinv : cashInv s) : cashInv (resolveTurn cfg o t act s).1 := by
  by_cases hne : s.players = []
  · intro p hp
    have hlen := resolveTurn_players_length cfg o t act s
    rw [hne] at hlen
    simp only [List.length_nil] at hlen
    rw [List.length_eq_zero.mp hlen] at hp
    simp at hp
  · have h0 : ∀ p ∈ pay_bid
        (resolve_winner cfg.discard_on_all_pass s.tiebreak_leader_id s.seating_order
          (collect_bids o t s)).1
        (resolve_winner cfg.discard_on_all_pass s.tiebreak_leader_id s.seating_order
          (collect_bids o t s)).2 s.players, 0 ≤ p.cash := by
      unfold pay_bid
      split
      · next hw =>
          obtain ⟨hlt, hle, _⟩ := winning_bid_le_winner_cash cfg o t s hinv hne hw
          intro q hq
          rcases mem_updateAt default hq with h | ⟨_, rfl⟩
          · exact hinv q h
          · simp only []
            omega
      · exact hinv
    intro p hp
    simp only [resolveTurn, reveal_on_win] at hp
    split at hp
    · exact cash_nonneg_reveal_players
        (cash_nonneg_apply_claims (cash_nonneg_apply_action h0)) p hp
    · exact cash_nonneg_apply_claims (cash_nonneg_apply_action h0) p hp

theorem loopDraw_cashInv (cfg : EngineConfig) (o : Oracle) (s : GameState) (t : Nat)
    (hinv : cashInv s) : cashInv (iterState (loopDraw cfg o s t)) := by
  unfold loopDraw
  rcases popLast s.action_draw_pile with _ | ⟨act, pile'⟩
  · exact hinv
  · simp only []
    split
    · exact hinv
    · split
      · exact hinv
      · exact resolveTurn_cashInv cfg o t act _ hinv

theorem loopIter_cashInv (cfg : EngineConfig) (o : Oracle) (s : GameState) (t : Nat)
    (hinv : cashInv s) : cashInv (iterState (loopIter cfg o s t)) := by
  unfold loopIter
  split
  · exact hinv
  · split
    · split
      · exact hinv
      · exact loopDraw_cashInv cfg o _ t hinv
    · exact loopDraw_cashInv cfg o s t hinv

theorem runLoop_cashInv (cfg : EngineConfig) (o : Oracle) :
    ∀ (fuel : Nat) (s : GameState) (t : Nat), cashInv s → cashInv (runLoop cfg o fuel s t) := by
  intro fuel
  induction fuel with
  | zero => intro s t h; exact h
  | succ n ih =>
      intro s t h
      unfold runLoop
      cases hit : loopIter cfg o s t with
      | ended s' =>
          have := loopIter_cashInv cfg o s t h
          rw [hit] at this
          exact this
      | next s' t' =>
          have h1 := loopIter_cashInv cfg o s t h
          rw [hit] at h1
          exact ih s' t' h1

/-! ### Gem conservation (claim C7) -/

theorem pay_bid_gems_map (w wb : Int) (ps : List PlayerState) :
    (pay_bid w wb ps).map gems_of = ps.map gems_of := by
  unfold pay_bid
  split
  · exact map_updateAt_of_fixed gems_of (fun x => rfl)
  · rfl

theorem apply_loan_gems_map (t : Nat) (w wb pr : Int) (ps : List PlayerState) :
    (apply_loan t w wb pr ps).map gems_of = ps.map gems_of := by
  unfold apply_loan
  split
  · exact map_updateAt_of_fixed gems_of (fun x => rfl)
  · rfl

theorem apply_invest_gems_map (t : Nat) (w wb pay : Int) (ps : List PlayerState) :
    (apply_invest t w wb pay ps).map gems_of = ps.map gems_of := by
  unfold apply_invest
  split
  · exact map_updateAt_of_fixed gems_of (fun x => rfl)
  · rfl

theorem give_gems_sum {w : Int} (g : List Card) {ps : List PlayerState}
    (hw : 0 ≤ w) (hlt : w.toNat < ps.length) :
    ((give_gems w g ps).map gems_of).sum = (ps.map gems_of).sum + g.length := by
  unfold give_gems
  rw [if_pos hw]
  have hsum := sum_map_updateAt_nat (l := ps) (i := w.toNat)
    (f := fun p => { p with gems_owned := p.gems_owned ++ g }) gems_of default hlt
  have hfp : gems_of ((fun p => { p with gems_owned := p.gems_owned ++ g })
      (ps.getD w.toNat default)) = gems_of (ps.getD w.toNat default) + g.length := by
    simp only [gems_of, List.length_append]
    omega
  omega

theorem apply_claims_gems_map (w : Int) (s1 : GameState) :
    (apply_claims w s1).1.players.map gems_of = s1.players.map gems_of := by
  unfold apply_claims
  split
  · exact map_updateAt_of_fixed gems_of (fun x => rfl)
  · rfl

theorem resolveTurn_gemCount (cfg : EngineConfig) (o : Oracle) (t : Nat) (act : GameAction)
    (s : GameState) (hd : cfg.discard_on_all_pass = false) (hne : s.players ≠ []) :
    gemCount (resolveTurn cfg o t act s).1 = gemCount s := by
  have hbne : collect_bids o t s ≠ [] := by
    intro hc
    have := collect_bids_length o t s
    rw [hc] at this
    exact hne (List.length_eq_zero.mp this.symm)
  have hm1 : (resolve_winner cfg.discard_on_all_pass s.tiebreak_leader_id s.seating_order
      (collect_bids o t s)).1 ≠ -1 := by
    intro hc
    have := resolve_winner_neg.mp hc
    rw [hd] at this
    exact absurd this.2 (by simp)
  obtain ⟨hw0, hmem, _⟩ := resolve_winner_pos hbne hm1
  have hlt : (resolve_winner cfg.discard_on_all_pass s.tiebreak_leader_id s.seating_order
      (collect_bids o t s)).1.toNat < s.players.length := by
    have := (mem_tiedOf.mp hmem).1
    rwa [collect_bids_length] at this
  have hltp : (resolve_winner cfg.discard_on_all_pass s.tiebreak_leader_id s.seating_order
      (collect_bids o t s)).1.toNat <
      (pay_bid (resolve_winner cfg.discard_on_all_pass s.tiebreak_leader_id s.seating_order
          (collect_bids o t s)).1
        (resolve_winner cfg.discard_on_all_pass s.tiebreak_leader_id s.seating_order
          (collect_bids o t s)).2 s.players).length := by
    rwa [pay_bid_length]
  simp only [resolveTurn, reveal_on_win]
  rw [if_pos hw0]
  show (apply_claims _ _).1.gem_draw_pile.length + (apply_claims _ _).1.upcoming.length +
      ((updateAt (apply_claims _ _).1.players _ _).map gems_of).sum = gemCount s
  rw [map_updateAt_of_fixed gems_of (fun x => reveal_player_gems _ x)]
  rw [apply_claims_pile, apply_claims_upcoming, apply_claims_gems_map]
  unfold apply_action
  cases act.kind
  case auction1 =>
      cases hup : s.upcoming with
      | nil =>
          simp only [gemCount]
          have hr := refill_upcoming_len [] s.gem_draw_pile
          rw [pay_bid_gems_map, hup]
          simp only [List.length_nil] at hr ⊢
          omega
      | cons gem rest =>
          simp only [gemCount]
          have hr := refill_upcoming_len rest s.gem_draw_pile
          rw [give_gems_sum [gem] hw0 hltp, pay_bid_gems_map, hup]
          simp only [List.length_cons, List.length_nil]
          omega
  case auction2 =>
      simp only [gemCount]
      have hr := refill_upcoming_len (s.upcoming.drop 2) s.gem_draw_pile
      rw [give_gems_sum (s.upcoming.take 2) hw0 hltp, pay_bid_gems_map]
      have hud : (s.upcoming.take 2).length + (s.upcoming.drop 2).length =
          s.upcoming.length := by
        rw [← List.length_append, List.take_append_drop]
      omega
  case loan10 =>
      simp only [gemCount]
      rw [apply_loan_gems_map, pay_bid_gems_map]
  case loan20 =>
      simp only [gemCount]
      rw [apply_loan_gems_map, pay_bid_gems_map]
  case invest5 =>
      simp only [gemCount]
      rw [apply_invest_gems_map, pay_bid_gems_map]
  case invest10 =>
      simp only [gemCount]
      rw [apply_invest_gems_map, pay_bid_gems_map]

/-! ### Construction-time lemmas -/

theorem engineInit_ok_elim {o : Oracle} {n : Nat} {cfg : EngineConfig} {vc : ValueChart}
    {ts : List TrinketObjective} {bns : Option (List String)} {s0 : GameState}
    (h : engineInit o n cfg vc ts bns = .ok s0) :
    ∃ names sc per,
      (3 ≤ n ∧ n ≤ 5) ∧
      alookup cfg.starting_cash_by_players n = some sc ∧
      checkNames o n bns = .ok names ∧
      alookup cfg.info_cards_per_player n = some per ∧
      ¬ ((o.shuffleGems (make_gem_deck cfg.gems_per_suit)).length < n * per) ∧
      s0 = initBuild o n cfg vc ts names sc per := by
  unfold engineInit at h
  split at h
  · cases h
  · next hcount =>
      split at h
      · cases h
      · next sc hsc =>
          split at h
          · cases h
          · next names hnames =>
              split at h
              · cases h
              · next per hper =>
                  split at h
                  · cases h
                  · next hdeck =>
                      refine ⟨names, sc, per, ?_, hsc, hnames, hper, hdeck,
                        (Except.ok.inj h).symm⟩
                      push_neg at hcount
                      exact hcount

theorem make_gem_deck_length (gps : Nat) : (make_gem_deck gps).length = 5 * gps := by
  show (((List.range allSuits.length).zip allSuits).flatMap _).length = 5 * gps
  have h5 : allSuits.length = 5 := rfl
  rw [h5]
  have hr : List.range 5 = [0, 1, 2, 3, 4] := rfl
  rw [hr]
  simp [allSuits, List.zip]
  omega

theorem dealToPlayer_conserve (per : Nat) :
    ∀ (deck : List Card) (p : PlayerState),
      (dealToPlayer per deck p).1.length + gems_of (dealToPlayer per deck p).2 =
        deck.length + gems_of p := by
  induction per with
  | zero => intro deck p; rfl
  | succ n ih =>
      intro deck p
      simp only [dealToPlayer]
      rcases hp : popLast deck with _ | ⟨c, deck'⟩
      · rfl
      · have hd := popLast_eq_some hp
        rw [ih]
        have hg : gems_of { p with unrevealed_info := p.unrevealed_info ++ [c] } =
            gems_of p + 1 := by
          simp only [gems_of, List.length_append, List.length_cons, List.length_nil]
          omega
        rw [hg, hd]
        simp only [List.length_append, List.length_cons, List.length_nil]
        omega

theorem dealToPlayer_cash (per : Nat) :
    ∀ (deck : List Card) (p : PlayerState),
      (dealToPlayer per deck p).2.cash = p.cash := by
  induction per with
  | zero => intro deck p; rfl
  | succ n ih =>
      intro deck p
      simp only [dealToPlayer]
      rcases popLast deck with _ | ⟨c, deck'⟩
      · rfl
      · rw [ih]

theorem dealAll_conserve (per : Nat) :
    ∀ (deck : List Card) (ps : List PlayerState),
      (dealAll per deck ps).1.length + ((dealAll per deck ps).2.map gems_of).sum =
        deck.length + (ps.map gems_of).sum := by
  intro deck ps
  induction ps generalizing deck with
  | nil => simp [dealAll]
  | cons p rest ih =>
      simp only [dealAll, List.map_cons, List.sum_cons]
      have h1 := dealToPlayer_conserve per deck p
      have h2 := ih (dealToPlayer per deck p).1
      omega

theorem dealAll_length (per : Nat) :
    ∀ (deck : List Card) (ps : List PlayerState),
      (dealAll per deck ps).2.length = ps.length := by
  intro deck ps
  induction ps generalizing deck with
  | nil => rfl
  | cons p rest ih => simp [dealAll, ih]

theorem dealAll_cash_forall (per : Nat) :
    ∀ (deck : List Card) (ps : List PlayerState) (v : Int),
      (∀ p ∈ ps, p.cash = v) → ∀ p ∈ (dealAll per deck ps).2, p.cash = v := by
  intro deck ps
  induction ps generalizing deck with
  | nil => intro v _ p hp; simp [dealAll] at hp
  | cons q rest ih =>
      intro v h p hp
      simp only [dealAll, List.mem_cons] at hp
      rcases hp with rfl | hp
      · rw [dealToPlayer_cash]
        exact h q (by simp)
      · exact ih _ v (fun r hr => h r (List.mem_cons_of_mem _ hr)) p hp

theorem popLast_len_cases {α : Type} (l : List α) :
    (popLast l = none ∧ l.length = 0) ∨
      ∃ c d, popLast l = some (c, d) ∧ l.length = d.length + 1 := by
  rcases hp : popLast l with _ | ⟨c, d⟩
  · left
    exact ⟨rfl, by rw [popLast_none hp]; rfl⟩
  · right
    refine ⟨c, d, rfl, ?_⟩
    rw [popLast_eq_some hp]
    simp

theorem initBuild_players_length (o : Oracle) (n : Nat) (cfg : EngineConfig)
    (vc : ValueChart) (ts : List TrinketObjective) (names : List String)
    (sc : Int) (per : Nat) :
    (initBuild o n cfg vc ts names sc per).players.length = n := by
  unfold initBuild
  rw [dealAll_length]
  simp

theorem initBuild_gemCount (o : Oracle) (n : Nat) (cfg : EngineConfig)
    (vc : ValueChart) (ts : List TrinketObjective) (names : List String)
    (sc : Int) (per : Nat)
    (hsh : (o.shuffleGems (make_gem_deck cfg.gems_per_suit)).length =
      (make_gem_deck cfg.gems_per_suit).length) :
    gemCount (initBuild o n cfg vc ts names sc per) = 5 * cfg.gems_per_suit := by
  unfold initBuild gemCount
  simp only []
  have h0 : ((((List.range n).map (fun i =>
      ({ player_id := i, name := names.getD i "", cash := sc,
         gems_owned := [], loans := [], investments := [],
         revealed_info := [], unrevealed_info := [], trinket_points := 0 } :
        PlayerState)))).map gems_of).sum = 0 := by
    simp only [List.map_map]
    have hz : (gems_of ∘ fun i =>
        ({ player_id := i, name := names.getD i "", cash := sc,
           gems_owned := [], loans := [], investments := [],
           revealed_info := [], unrevealed_info := [], trinket_points := 0 } :
          PlayerState)) = fun _ => (0 : Nat) := funext fun i => rfl
    rw [hz]
    simp
  have hd := dealAll_conserve per (o.shuffleGems (make_gem_deck cfg.gems_per_suit))
    ((List.range n).map (fun i =>
      { player_id := i, name := names.getD i "", cash := sc,
        gems_owned := [], loans := [], investments := [],
        revealed_info := [], unrevealed_info := [], trinket_points := 0 }))
  rw [h0, hsh, make_gem_deck_length] at hd
  rcases popLast_len_cases (dealAll per (o.shuffleGems (make_gem_deck cfg.gems_per_suit))
      ((List.range n).map (fun i =>
        { player_id := i, name := names.getD i "", cash := sc,
          gems_owned := [], loans := [], investments := [],
          revealed_info := [], unrevealed_info := [], trinket_points := 0 }))).1 with
    hp1 | ⟨c1, d1, hp1, hl1⟩
  · rw [hp1.1]
    simp only []
    rcases popLast_len_cases (dealAll per (o.shuffleGems (make_gem_deck cfg.gems_per_suit))
        ((List.range n).map (fun i =>
          { player_id := i, name := names.getD i "", cash := sc,
            gems_owned := [], loans := [], investments := [],
            revealed_info := [], unrevealed_info := [], trinket_points := 0 }))).1 with
      hp2 | ⟨c2, d2, hp2, hl2⟩
    · rw [hp2.1]
      simp only [List.length_nil]
      omega
    · rw [hp1.1] at hp2
      cases hp2
  · rw [hp1]
    simp only []
    rcases popLast_len_cases d1 with hp2 | ⟨c2, d2, hp2, hl2⟩
    · rw [hp2.1]
      simp only [List.length_cons, List.length_nil]
      omega
    · rw [hp2]
      simp only [List.length_append, List.length_cons, List.length_nil]
      omega

theorem initBuild_cash (o : Oracle) (n : Nat) (cfg : EngineConfig)
    (vc : ValueChart) (ts : List TrinketObjective) (names : List String)
    (sc : Int) (per : Nat) :
    ∀ p ∈ (initBuild o n cfg vc ts names sc per).players, p.cash = sc := by
  unfold initBuild
  simp only []
  intro p hp
  refine dealAll_cash_forall per _ _ sc ?_ p hp
  intro q hq
  simp only [List.mem_map] at hq
  obtain ⟨i, _, rfl⟩ := hq
  rfl

theorem initBuild_cashInv (o : Oracle) (n : Nat) (cfg : EngineConfig)
    (vc : ValueChart) (ts : List TrinketObjective) (names : List String)
    (sc : Int) (per : Nat) (hsc : 0 ≤ sc) :
    cashInv (initBuild o n cfg vc ts names sc per) := by
  intro p hp
  rw [initBuild_cash o n cfg vc ts names sc per p hp]
  exact hsc

/-! ### Gem conservation through the loop -/

theorem loopDraw_gemCount (cfg : EngineConfig) (o : Oracle) (s : GameState) (t : Nat)
    (hd : cfg.discard_on_all_pass = false) (hne : s.players ≠ []) :
    gemCount (iterState (loopDraw cfg o s t)) = gemCount s := by
  unfold loopDraw
  rcases popLast s.action_draw_pile with _ | ⟨act, pile'⟩
  · rfl
  · simp only []
    split
    · rfl
    · split
      · rfl
      · exact resolveTurn_gemCount cfg o t act _ hd hne

theorem loopIter_gemCount (cfg : EngineConfig) (o : Oracle) (s : GameState) (t : Nat)
    (hd : cfg.discard_on_all_pass = false) (hne : s.players ≠ []) :
    gemCount (iterState (loopIter cfg o s t)) = gemCount s := by
  unfold loopIter
  split
  · rfl
  · split
    · split
      · rfl
      · exact loopDraw_gemCount cfg o _ t hd hne
    · exact loopDraw_gemCount cfg o s t hd hne

theorem runLoop_gemCount (cfg : EngineConfig) (o : Oracle)
    (hd : cfg.discard_on_all_pass = false) :
    ∀ (fuel : Nat) (s : GameState) (t : Nat), s.players ≠ [] →
      gemCount (runLoop cfg o fuel s t) = gemCount s := by
  intro fuel
  induction fuel with
  | zero => intro s t _; rfl
  | succ m ih =>
      intro s t hne
      unfold runLoop
      cases hit : loopIter cfg o s t with
      | ended s' =>
          have := loopIter_gemCount cfg o s t hd hne
          rw [hit] at this
          exact this
      | next s' t' =>
          have h1 := loopIter_gemCount cfg o s t hd hne
          rw [hit] at h1
          have hlen := loopIter_players_length cfg o s t
          rw [hit] at hlen
          simp only [iterState] at h1 hlen
          have hne' : s'.players ≠ [] := by
            intro hc
            rw [hc] at hlen
            exact hne (List.length_eq_zero.mp hlen.symm)
          rw [ih s' t' hne']
          exact h1

/-! ### Trinket claiming invariants (claim C6) -/

theorem updateAt_getD_proj {α β : Type} [Inhabited α] {ps : List α} {i : Nat} {f : α → α}
    (g : α → β) (hf : ∀ p, g (f p) = g p) (j : Nat) :
    g ((updateAt ps i f).getD j default) = g (ps.getD j default) := by
  by_cases hj : j = i
  · subst hj
    by_cases hlt : j < ps.length
    · rw [updateAt_getD_self f default hlt, hf]
    · rw [updateAt_ge_length f (le_of_not_lt hlt)]
  · rw [updateAt_getD_ne f default hj]

theorem apply_claims_trinkets_length (w : Int) (s1 : GameState) :
    (apply_claims w s1).1.trinkets.length = s1.trinkets.length := by
  unfold apply_claims
  split
  · exact award_trinkets_length _ _ _
  · rfl

theorem apply_claims_claimed_mono (w : Int) (s1 : GameState) {i : Nat} {v : Nat}
    (h : (s1.trinkets.getD i default).claimed_by = some v) :
    ((apply_claims w s1).1.trinkets.getD i default).claimed_by = some v := by
  unfold apply_claims
  split
  · exact award_trinkets_mono _ _ _ _ h
  · exact h

theorem apply_claims_new (w : Int) (s1 : GameState) {i : Nat}
    (h : (s1.trinkets.getD i default).claimed_by = none)
    (h' : ((apply_claims w s1).1.trinkets.getD i default).claimed_by ≠ none) :
    0 ≤ w ∧ ((apply_claims w s1).1.trinkets.getD i default).claimed_by = some w.toNat := by
  unfold apply_claims at h' ⊢
  split at h'
  · next hw =>
      rw [if_pos hw]
      exact ⟨hw, award_trinkets_new_claim _ _ _ _ h (by exact h')⟩
  · exact absurd h h'

theorem apply_claims_objective (w : Int) (s1 : GameState) (i : Nat) :
    ((apply_claims w s1).1.trinkets.getD i default).objective =
      (s1.trinkets.getD i default).objective := by
  unfold apply_claims
  split
  · exact award_trinkets_objective _ _ _ _ _
  · rfl

theorem apply_claims_no_winner (w : Int) (s1 : GameState) (hw : w < 0) :
    (apply_claims w s1).1.trinkets = s1.trinkets := by
  unfold apply_claims
  split
  · next h => omega
  · rfl

/-- The `AuctionResult` produced by a resolved turn, in terms of the
resolution inputs, together with the leader update of the state. -/
theorem resolveTurn_result (cfg : EngineConfig) (o : Oracle) (t : Nat) (act : GameAction)
    (s : GameState) :
    (resolveTurn cfg o t act s).2.winner_id =
      (resolve_winner cfg.discard_on_all_pass s.tiebreak_leader_id s.seating_order
        (collect_bids o t s)).1 ∧
    (resolveTurn cfg o t act s).2.winning_bid =
      (resolve_winner cfg.discard_on_all_pass s.tiebreak_leader_id s.seating_order
        (collect_bids o t s)).2 ∧
    (resolveTurn cfg o t act s).2.new_tiebreak_leader_id =
      (if 0 ≤ (resolve_winner cfg.discard_on_all_pass s.tiebreak_leader_id s.seating_order
          (collect_bids o t s)).1 then
        (resolve_winner cfg.discard_on_all_pass s.tiebreak_leader_id s.seating_order
          (collect_bids o t s)).1.toNat
      else s.tiebreak_leader_id) ∧
    (resolveTurn cfg o t act s).2.bids = collect_bids o t s ∧
    (resolveTurn cfg o t act s).1.tiebreak_leader_id =
      (resolveTurn cfg o t act s).2.new_tiebreak_leader_id ∧
    (resolveTurn cfg o t act s).2.turn_index = t ∧
    (resolveTurn cfg o t act s).2.action = act := by
  refine ⟨rfl, rfl, rfl, rfl, ?_, rfl, rfl⟩
  simp only [resolveTurn, reveal_on_win_leader]

theorem resolveTurn_trinkets_length (cfg : EngineConfig) (o : Oracle) (t : Nat)
    (act : GameAction) (s : GameState) :
    (resolveTurn cfg o t act s).1.trinkets.length = s.trinkets.length := by
  simp only [resolveTurn, reveal_on_win_trinkets]
  rw [apply_claims_trinkets_length]
  rw [apply_action_trinkets]

theorem resolveTurn_claimed_mono (cfg : EngineConfig) (o : Oracle) (t : Nat)
    (act : GameAction) (s : GameState) {i : Nat} {v : Nat}
    (h : claimedAt s i = some v) : claimedAt (resolveTurn cfg o t act s).1 i = some v := by
  unfold claimedAt at h ⊢
  simp only [resolveTurn, reveal_on_win_trinkets]
  refine apply_claims_claimed_mono _ _ ?_
  rw [apply_action_trinkets]
  exact h

theorem resolveTurn_claimed_new (cfg : EngineConfig) (o : Oracle) (t : Nat)
    (act : GameAction) (s : GameState) {i : Nat}
    (h : claimedAt s i = none) (h' : claimedAt (resolveTurn cfg o t act s).1 i ≠ none) :
    0 ≤ (resolveTurn cfg o t act s).2.winner_id ∧
      claimedAt (resolveTurn cfg o t act s).1 i =
        some (resolveTurn cfg o t act s).2.winner_id.toNat := by
  unfold claimedAt at h h' ⊢
  simp only [resolveTurn, reveal_on_win_trinkets] at h' ⊢
  refine apply_claims_new _ _ ?_ h'
  rw [apply_action_trinkets]
  exact h

theorem resolveTurn_objective (cfg : EngineConfig) (o : Oracle) (t : Nat)
    (act : GameAction) (s : GameState) (i : Nat) :
    objAt (resolveTurn cfg o t act s).1 i = objAt s i := by
  unfold objAt
  simp only [resolveTurn, reveal_on_win_trinkets]
  rw [apply_claims_objective, apply_action_trinkets]

theorem resolveTurn_no_winner_trinkets (cfg : EngineConfig) (o : Oracle) (t : Nat)
    (act : GameAction) (s : GameState)
    (hw : (resolveTurn cfg o t act s).2.winner_id < 0) :
    (resolveTurn cfg o t act s).1.trinkets = s.trinkets := by
  simp only [resolveTurn] at hw ⊢
  rw [reveal_on_win_trinkets]
  rw [apply_claims_no_winner _ _ hw, apply_action_trinkets]

theorem pay_bid_points_getD (w wb : Int) (ps : List PlayerState) (j : Nat) :
    ((pay_bid w wb ps).getD j default).trinket_points =
      (ps.getD j default).trinket_points := by
  unfold pay_bid
  split
  · exact updateAt_getD_proj (fun (p : PlayerState) => p.trinket_points) (fun p => by rfl) j
  · rfl

theorem apply_action_points_getD (t : Nat) (act : GameAction) (w wb : Int) (s : GameState)
    (ps : List PlayerState) (j : Nat) :
    ((apply_action t act w wb s ps).1.players.getD j default).trinket_points =
      (ps.getD j default).trinket_points := by
  unfold apply_action
  cases act.kind
  case auction1 =>
      cases s.upcoming
      · rfl
      · simp only []
        unfold give_gems
        split
        · exact updateAt_getD_proj (fun (p : PlayerState) => p.trinket_points) (fun p => by rfl) j
        · rfl
  case auction2 =>
      simp only []
      unfold give_gems
      split
      · exact updateAt_getD_proj (fun (p : PlayerState) => p.trinket_points) (fun p => by rfl) j
      · rfl
  case loan10 =>
      simp only []
      unfold apply_loan
      split
      · exact updateAt_getD_proj (fun (p : PlayerState) => p.trinket_points) (fun p => by rfl) j
      · rfl
  case loan20 =>
      simp only []
      unfold apply_loan
      split
      · exact updateAt_getD_proj (fun (p : PlayerState) => p.trinket_points) (fun p => by rfl) j
      · rfl
  case invest5 =>
      simp only []
      unfold apply_invest
      split
      · exact updateAt_getD_proj (fun (p : PlayerState) => p.trinket_points) (fun p => by rfl) j
      · rfl
  case invest10 =>
      simp only []
      unfold apply_invest
      split
      · exact updateAt_getD_proj (fun (p : PlayerState) => p.trinket_points) (fun p => by rfl) j
      · rfl

theorem reveal_points_getD (c : String) (ps : List PlayerState) (i j : Nat) :
    ((updateAt ps i (reveal_player c)).getD j default).trinket_points =
      (ps.getD j default).trinket_points :=
  updateAt_getD_proj (fun (p : PlayerState) => p.trinket_points)
    (fun p => reveal_player_trinket_points c p) j

theorem apply_claims_points_winner (w : Int) (s1 : GameState) (hw : 0 ≤ w)
    (hlt : w.toNat < s1.players.length) :
    ((apply_claims w s1).1.players.getD w.toNat default).trinket_points =
      (s1.players.getD w.toNat default).trinket_points +
        newly_claimed_points s1.trinkets (apply_claims w s1).1.trinkets := by
  unfold apply_claims
  rw [if_pos hw]
  show ((updateAt s1.players w.toNat _).getD w.toNat default).trinket_points = _
  rw [updateAt_getD_self _ default hlt]
  simp only []
  rw [award_trinkets_points]

theorem apply_claims_points_other (w : Int) (s1 : GameState) (j : Nat)
    (hj : w < 0 ∨ j ≠ w.toNat) :
    ((apply_claims w s1).1.players.getD j default).trinket_points =
      (s1.players.getD j default).trinket_points := by
  unfold apply_claims
  split
  · next hw =>
      rcases hj with hj | hj
      · omega
      · show ((updateAt s1.players w.toNat _).getD j default).trinket_points = _
        rw [updateAt_getD_ne _ default hj]
  · rfl

theorem resolveTurn_points_other (cfg : EngineConfig) (o : Oracle) (t : Nat)
    (act : GameAction) (s : GameState) (j : Nat)
    (hj : (resolveTurn cfg o t act s).2.winner_id < 0 ∨
      j ≠ (resolveTurn cfg o t act s).2.winner_id.toNat) :
    ptsAt (resolveTurn cfg o t act s).1 j = ptsAt s j := by
  unfold ptsAt
  simp only [resolveTurn, reveal_on_win] at hj ⊢
  split
  · rw [reveal_points_getD]
    rw [apply_claims_points_other _ _ _ hj, apply_action_points_getD, pay_bid_points_getD]
  · rw [apply_claims_points_other _ _ _ hj, apply_action_points_getD, pay_bid_points_getD]

theorem resolveTurn_points_winner (cfg : EngineConfig) (o : Oracle) (t : Nat)
    (act : GameAction) (s : GameState)
    (hw : 0 ≤ (resolveTurn cfg o t act s).2.winner_id)
    (hlt : (resolveTurn cfg o t act s).2.winner_id.toNat < s.players.length) :
    ptsAt (resolveTurn cfg o t act s).1 (resolveTurn cfg o t act s).2.winner_id.toNat =
      ptsAt s (resolveTurn cfg o t act s).2.winner_id.toNat +
        newly_claimed_points s.trinkets (resolveTurn cfg o t act s).1.trinkets := by
  unfold ptsAt
  simp only [resolveTurn, reveal_on_win, reveal_on_win_trinkets] at hw hlt ⊢
  rw [if_pos hw]
  rw [reveal_points_getD]
  have hlt1 : (resolve_winner cfg.discard_on_all_pass s.tiebreak_leader_id s.seating_order
      (collect_bids o t s)).1.toNat <
      (apply_action t act
        (resolve_winner cfg.discard_on_all_pass s.tiebreak_leader_id s.seating_order
          (collect_bids o t s)).1
        (resolve_winner cfg.discard_on_all_pass s.tiebreak_leader_id s.seating_order
          (collect_bids o t s)).2 s
        (pay_bid
          (resolve_winner cfg.discard_on_all_pass s.tiebreak_leader_id s.seating_order
            (collect_bids o t s)).1
          (resolve_winner cfg.discard_on_all_pass s.tiebreak_leader_id s.seating_order
            (collect_bids o t s)).2 s.players)).1.players.length := by
    rw [apply_action_players_length, pay_bid_length]
    exact hlt
  rw [apply_claims_points_winner _ _ hw hlt1]
  rw [apply_action_points_getD, pay_bid_points_getD, apply_action_trinkets]

theorem loopDraw_claimed_mono (cfg : EngineConfig) (o : Oracle) (s : GameState) (t : Nat)
    {i : Nat} {v : Nat} (h : claimedAt s i = some v) :
    claimedAt (iterState (loopDraw cfg o s t)) i = some v := by
  unfold loopDraw
  rcases popLast s.action_draw_pile with _ | ⟨act, pile'⟩
  · exact h
  · simp only []
    split
    · exact h
    · split
      · exact h
      · exact resolveTurn_claimed_mono cfg o t act _ h

theorem loopIter_claimed_mono (cfg : EngineConfig) (o : Oracle) (s : GameState) (t : Nat)
    {i : Nat} {v : Nat} (h : claimedAt s i = some v) :
    claimedAt (iterState (loopIter cfg o s t)) i = some v := by
  unfold loopIter
  split
  · exact h
  · split
    · split
      · exact h
      · exact loopDraw_claimed_mono cfg o _ t h
    · exact loopDraw_claimed_mono cfg o s t h

theorem runLoop_claimed_mono (cfg : EngineConfig) (o : Oracle) :
    ∀ (fuel : Nat) (s : GameState) (t : Nat) {i : Nat} {v : Nat},
      claimedAt s i = some v → claimedAt (runLoop cfg o fuel s t) i = some v := by
  intro fuel
  induction fuel with
  | zero => intro s t i v h; exact h
  | succ m ih =>
      intro s t i v h
      unfold runLoop
      cases hit : loopIter cfg o s t with
      | ended s' =>
          have := loopIter_claimed_mono cfg o s t h
          rw [hit] at this
          exact this
      | next s' t' =>
          have h1 := loopIter_claimed_mono cfg o s t h
          rw [hit] at h1
          exact ih s' t' h1

/-! ### Investment accounting (claim C9) -/

theorem pay_bid_cash_getD_winner (w wb : Int) (ps : List PlayerState)
    (hw : 0 ≤ w) (hlt : w.toNat < ps.length) :
    ((pay_bid w wb ps).getD w.toNat default).cash = (ps.getD w.toNat default).cash - wb := by
  unfold pay_bid
  rw [if_pos hw, updateAt_getD_self _ default hlt]

theorem pay_bid_investments_getD (w wb : Int) (ps : List PlayerState) (j : Nat) :
    ((pay_bid w wb ps).getD j default).investments = (ps.getD j default).investments := by
  unfold pay_bid
  split
  · exact updateAt_getD_proj (fun (p : PlayerState) => p.investments) (fun p => by rfl) j
  · rfl

theorem apply_invest_getD_winner (t : Nat) (w wb pay : Int) (ps : List PlayerState)
    (hw : 0 ≤ w) (hlt : w.toNat < ps.length) :
    ((apply_invest t w wb pay ps).getD w.toNat default).cash =
        (ps.getD w.toNat default).cash ∧
      ((apply_invest t w wb pay ps).getD w.toNat default).investments =
        (ps.getD w.toNat default).investments ++
          [{ id := "I" ++ toString t, payout := pay, locked := wb }] := by
  unfold apply_invest
  rw [if_pos hw, updateAt_getD_self _ default hlt]
  exact ⟨rfl, rfl⟩

theorem apply_action_invest5_players (t : Nat) (act : GameAction) (w wb : Int)
    (s : GameState) (ps : List PlayerState) (hk : act.kind = .invest5) :
    (apply_action t act w wb s ps).1.players = apply_invest t w wb 5 ps := by
  unfold apply_action
  rw [hk]

theorem apply_action_invest10_players (t : Nat) (act : GameAction) (w wb : Int)
    (s : GameState) (ps : List PlayerState) (hk : act.kind = .invest10) :
    (apply_action t act w wb s ps).1.players = apply_invest t w wb 10 ps := by
  unfold apply_action
  rw [hk]

theorem apply_claims_cash_getD (w : Int) (s1 : GameState) (j : Nat) :
    ((apply_claims w s1).1.players.getD j default).cash =
      (s1.players.getD j default).cash := by
  unfold apply_claims
  split
  · exact updateAt_getD_proj (fun (p : PlayerState) => p.cash) (fun p => by rfl) j
  · rfl

theorem apply_claims_investments_getD (w : Int) (s1 : GameState) (j : Nat) :
    ((apply_claims w s1).1.players.getD j default).investments =
      (s1.players.getD j default).investments := by
  unfold apply_claims
  split
  · exact updateAt_getD_proj (fun (p : PlayerState) => p.investments) (fun p => by rfl) j
  · rfl

theorem reveal_cash_getD (c : String) (ps : List PlayerState) (i j : Nat) :
    ((updateAt ps i (reveal_player c)).getD j default).cash =
      (ps.getD j default).cash :=
  updateAt_getD_proj (fun (p : PlayerState) => p.cash)
    (fun p => reveal_player_cash c p) j

theorem reveal_investments_getD (c : String) (ps : List PlayerState) (i j : Nat) :
    ((updateAt ps i (reveal_player c)).getD j default).investments =
      (ps.getD j default).investments :=
  updateAt_getD_proj (fun (p : PlayerState) => p.investments)
    (fun p => reveal_player_investments c p) j

/-- Resolving an investment turn with a winner: the winner's cash drops by
exactly the winning bid, and an `InvestmentPosition` locking that bid is
appended, with payout 5 or 10 by action kind. -/
theorem resolveTurn_invest (cfg : EngineConfig) (o : Oracle) (t : Nat) (act : GameAction)
    (s : GameState) (hk : act.kind = .invest5 ∨ act.kind = .invest10)
    (hw : 0 ≤ (resolveTurn cfg o t act s).2.winner_id)
    (hlt : (resolveTurn cfg o t act s).2.winner_id.toNat < s.players.length) :
    ((resolveTurn cfg o t act s).1.players.getD
        (resolveTurn cfg o t act s).2.winner_id.toNat default).cash =
      (s.players.getD (resolveTurn cfg o t act s).2.winner_id.toNat default).cash -
        (resolveTurn cfg o t act s).2.winning_bid ∧
    ((resolveTurn cfg o t act s).1.players.getD
        (resolveTurn cfg o t act s).2.winner_id.toNat default).investments =
      (s.players.getD (resolveTurn cfg o t act s).2.winner_id.toNat default).investments ++
        [{ id := "I" ++ toString t,
           payout := if act.kind = .invest5 then 5 else 10,
           locked := (resolveTurn cfg o t act s).2.winning_bid }] := by
  simp only [resolveTurn, reveal_on_win] at hw hlt ⊢
  rw [if_pos hw]
  rw [reveal_cash_getD, reveal_investments_getD]
  rw [apply_claims_cash_getD, apply_claims_investments_getD]
  have hltp : (resolve_winner cfg.discard_on_all_pass s.tiebreak_leader_id s.seating_order
      (collect_bids o t s)).1.toNat <
      (pay_bid (resolve_winner cfg.discard_on_all_pass s.tiebreak_leader_id s.seating_order
          (collect_bids o t s)).1
        (resolve_winner cfg.discard_on_all_pass s.tiebreak_leader_id s.seating_order
          (collect_bids o t s)).2 s.players).length := by
    rw [pay_bid_length]
    exact hlt
  rcases hk with hk | hk
  · rw [apply_action_invest5_players _ _ _ _ _ _ hk, hk]
    have hi := apply_invest_getD_winner t
      (resolve_winner cfg.discard_on_all_pass s.tiebreak_leader_id s.seating_order
        (collect_bids o t s)).1
      (resolve_winner cfg.discard_on_all_pass s.tiebreak_leader_id s.seating_order
        (collect_bids o t s)).2 5 _ hw hltp
    rw [hi.1, hi.2]
    rw [pay_bid_cash_getD_winner _ _ _ hw hlt, pay_bid_investments_getD]
    simp
  · rw [apply_action_invest10_players _ _ _ _ _ _ hk, hk]
    have hi := apply_invest_getD_winner t
      (resolve_winner cfg.discard_on_all_pass s.tiebreak_leader_id s.seating_order
        (collect_bids o t s)).1
      (resolve_winner cfg.discard_on_all_pass s.tiebreak_leader_id s.seating_order
        (collect_bids o t s)).2 10 _ hw hltp
    rw [hi.1, hi.2]
    rw [pay_bid_cash_getD_winner _ _ _ hw hlt, pay_bid_investments_getD]
    simp

/-- Scoring is linear in the investment list: appending one investment adds
exactly `payout + locked` to the score. -/
theorem compute_score_invest_append (chart : ValueChart) (counts : Suit → Nat)
    (p : PlayerState) (inv : InvestmentPosition) :
    compute_score chart counts { p with investments := p.investments ++ [inv] } =
      compute_score chart counts p + (inv.payout + inv.locked) := by
  simp only [compute_score, List.map_append, List.sum_append, List.map_cons, List.map_nil,
    List.sum_cons, List.sum_nil]
  ring

/-! ### Winner-sentinel characterisation (claim C10) and tie-break order
(claim C3) -/

theorem resolve_winner_sentinel (d : Bool) (leader : Nat) (seating : List Nat)
    (bids : List Int) (hne : bids ≠ []) (hnn : ∀ b ∈ bids, 0 ≤ b) :
    ((resolve_winner d leader seating bids).1 = -1 ↔
        (d = true ∧ ∀ b ∈ bids, b = 0)) ∧
      ((resolve_winner d leader seating bids).1 ≠ -1 →
        0 ≤ (resolve_winner d leader seating bids).1 ∧
          (resolve_winner d leader seating bids).1 < (bids.length : Int)) := by
  constructor
  · rw [resolve_winner_neg]
    rw [list_max_eq_zero_iff hnn hne]
    exact ⟨fun h => ⟨h.2, h.1⟩, fun h => ⟨h.2, h.1⟩⟩
  · intro h
    obtain ⟨h0, hmem, _⟩ := resolve_winner_pos hne h
    have hlt := (mem_tiedOf.mp hmem).1
    exact ⟨h0, by omega⟩

theorem contains_iff_mem {l : List Nat} {a : Nat} : l.contains a = true ↔ a ∈ l := by
  simp [List.contains]

/-- The tie-break winner is the first member of the tied set in the
clockwise scan order (when some scanned player is tied at all). -/
theorem tie_break_winner_first (seating tied : List Nat) (leader : Nat)
    (h : ∃ q ∈ scan_order seating leader, q ∈ tied) :
    ∃ i, i < (scan_order seating leader).length ∧
      (scan_order seating leader).getD i 0 = tie_break_winner seating tied leader ∧
      tie_break_winner seating tied leader ∈ tied ∧
      ∀ j, j < i → (scan_order seating leader).getD j 0 ∉ tied := by
  unfold tie_break_winner scan_pick
  rcases hf : (scan_order seating leader).find? (fun pid => tied.contains pid) with _ | pid
  · exfalso
    obtain ⟨q, hq, hqt⟩ := h
    have := List.find?_eq_none.mp hf q hq
    exact this (contains_iff_mem.mpr hqt)
  · obtain ⟨i, hi, hg, hp, hfirst⟩ := find?_first (fun pid => tied.contains pid) 0 _ _ hf
    refine ⟨i, hi, hg, contains_iff_mem.mp hp, ?_⟩
    intro j hj hmem
    have := hfirst j hj
    rw [contains_iff_mem.mpr hmem] at this
    cases this

/-! ### Error characterisation of construction (claim C8) -/

theorem checkNames_ok_some {o : Oracle} {n : Nat} {ns names : List String}
    (h : checkNames o n (some ns) = .ok names) : names = ns ∧ ns.length = n := by
  simp only [checkNames] at h
  split at h
  · cases h
  · next hlen =>
      push_neg at hlen
      exact ⟨(Except.ok.inj h).symm, hlen⟩

theorem checkNames_error_cases {o : Oracle} {n : Nat} {bns : Option (List String)}
    {e : ConfigError} (h : checkNames o n bns = .error e) :
    ∃ ns, bns = some ns ∧ ns.length ≠ n := by
  cases bns with
  | none => simp [checkNames] at h
  | some ns =>
      simp only [checkNames] at h
      split at h
      · next hlen => exact ⟨ns, rfl, hlen⟩
      · cases h

/-- `__init__` raises exactly when: the player count is out of `[3,5]`, or
the starting-cash table misses the player count, or explicit bot names
have the wrong length, or the info-card table misses the player count, or
the gem deck cannot cover the deal. -/
theorem engineInit_error_iff (o : Oracle) (n : Nat) (cfg : EngineConfig) (vc : ValueChart)
    (ts : List TrinketObjective) (bns : Option (List String))
    (hsh : ∀ l, (o.shuffleGems l).length = l.length) :
    (∃ e, engineInit o n cfg vc ts bns = .error e) ↔
      (¬ (3 ≤ n ∧ n ≤ 5) ∨
        alookup cfg.starting_cash_by_players n = none ∨
        (∃ ns, bns = some ns ∧ ns.length ≠ n) ∨
        alookup cfg.info_cards_per_player n = none ∨
        (∃ per, alookup cfg.info_cards_per_player n = some per ∧
          5 * cfg.gems_per_suit < n * per)) := by
  constructor
  · rintro ⟨e, he⟩
    unfold engineInit at he
    split at he
    · next hcount => exact Or.inl hcount
    · next hcount =>
        split at he
        · next hsc => exact Or.inr (Or.inl hsc)
        · next sc hsc =>
            split at he
            · next e' hn => exact Or.inr (Or.inr (Or.inl (checkNames_error_cases hn)))
            · next names hn =>
                split at he
                · next hper => exact Or.inr (Or.inr (Or.inr (Or.inl hper)))
                · next per hper =>
                    split at he
                    · next hdeck =>
                        rw [hsh, make_gem_deck_length] at hdeck
                        exact Or.inr (Or.inr (Or.inr (Or.inr ⟨per, hper, hdeck⟩)))
                    · cases he
  · intro hdisj
    cases heval : engineInit o n cfg vc ts bns with
    | error e => exact ⟨e, rfl⟩
    | ok s0 =>
        exfalso
        obtain ⟨names, sc, per, hcount, hsc, hnames, hper, hdeck, _⟩ :=
          engineInit_ok_elim heval
        rw [hsh, make_gem_deck_length] at hdeck
        rcases hdisj with h | h | h | h | h
        · exact h hcount
        · rw [hsc] at h; cases h
        · obtain ⟨ns, rfl, hlen⟩ := h
          exact hlen (checkNames_ok_some hnames).2
        · rw [hper] at h; cases h
        · obtain ⟨per', hper', hlt⟩ := h
          rw [hper] at hper'
          have : per = per' := by injection hper'
          subst this
          exact hdeck hlt

/-! ### Concrete instances used by counterexamples and witnesses -/

/-! ### Claim theorems -/

/-- C2: the engine does not clamp the value-chart index.  Evaluating
`_compute_score`'s lookup at the failing input — the default chart
`[0,4,8,12,16,20,24]` and a start-of-game count of 7 info cards of one
suit (reachable with `gems_per_suit = 8`) — yields a per-gem value of 0,
not the last chart entry 24 that clamping to `[0, len-1]` would give. -/
theorem C2_out_of_range_count_scores_zero :
    gem_value default_value_chart 7 = 0 ∧
      default_value_chart.mapping.getD (default_value_chart.mapping.length - 1) 0 = 24 ∧
      default_value_chart.mapping.length ≤ 7 := by
  refine ⟨?_, by decide, by decide⟩
  decide

/-- C3: with several players sharing the maximum bid (and the
all-pass-discard case not applying), the winner is the first member of
the tied set in the clockwise scan that starts right after the tiebreak
leader and ends with the leader; concretely, with seating `(0,1,2)` and
leader 0 a tie `{1,2}` is won by 1, a tie `{0,2}` by 2, and a tie holding
only the leader by the leader. -/
theorem C3_tie_break_clockwise_scan :
    (∀ (seating tied : List Nat) (leader : Nat),
      (∃ q ∈ scan_order seating leader, q ∈ tied) →
      ∃ i, i < (scan_order seating leader).length ∧
        (scan_order seating leader).getD i 0 = tie_break_winner seating tied leader ∧
        tie_break_winner seating tied leader ∈ tied ∧
        ∀ j, j < i → (scan_order seating leader).getD j 0 ∉ tied) ∧
    (∀ (d : Bool) (leader : Nat) (seating : List Nat) (bids : List Int),
      ¬ (list_max bids = 0 ∧ d = true) →
      (tiedOf bids (list_max bids)).length ≠ 1 →
      resolve_winner d leader seating bids =
        (((tie_break_winner seating (tiedOf bids (list_max bids)) leader : Nat) : Int),
          list_max bids)) ∧
    tie_break_winner [0, 1, 2] [1, 2] 0 = 1 ∧
    tie_break_winner [0, 1, 2] [0, 2] 0 = 2 ∧
    tie_break_winner [0, 1, 2] [0] 0 = 0 ∧
    resolve_winner false 0 [0, 1, 2] [0, 5, 5] = (1, 5) ∧
    resolve_winner false 0 [0, 1, 2] [5, 0, 5] = (2, 5) := by
  refine ⟨tie_break_winner_first, ?_, by decide, by decide, by decide, by decide, by decide⟩
  intro d leader seating bids h1 h2
  unfold resolve_winner
  rw [if_neg h1, if_neg h2]

/-- C3 witness: the general scan-first property applied at seating
`(0,1,2)`, tie `{1,2}`, leader 0. -/
theorem C3_tie_break_clockwise_scan_witness :
    (∃ q ∈ scan_order [0, 1, 2] 0, q ∈ [1, 2]) ∧
    (∃ i, i < (scan_order [0, 1, 2] 0).length ∧
      (scan_order [0, 1, 2] 0).getD i 0 = tie_break_winner [0, 1, 2] [1, 2] 0 ∧
      tie_break_winner [0, 1, 2] [1, 2] 0 ∈ [1, 2] ∧
      ∀ j, j < i → (scan_order [0, 1, 2] 0).getD j 0 ∉ [1, 2]) :=
  ⟨by decide, C3_tie_break_clockwise_scan.1 [0, 1, 2] [1, 2] 0 (by decide)⟩

/-- C10: a resolved turn's `winner_id` is the sentinel `-1` exactly when
`discard_on_all_pass` is enabled and every legalized bid is 0; otherwise
it is a valid player index, and `new_tiebreak_leader_id` is the winner
when there is one and the previous leader otherwise (and it is also the
state's leader afterwards). -/
theorem C10_winner_sentinel_and_leader (cfg : EngineConfig) (o : Oracle) (t : Nat)
    (act : GameAction) (s : GameState) (hne : s.players ≠ []) :
    ((resolveTurn cfg o t act s).2.winner_id = -1 ↔
        (cfg.discard_on_all_pass = true ∧ ∀ b ∈ collect_bids o t s, b = 0)) ∧
    ((resolveTurn cfg o t act s).2.winner_id ≠ -1 →
        0 ≤ (resolveTurn cfg o t act s).2.winner_id ∧
          (resolveTurn cfg o t act s).2.winner_id < (s.players.length : Int)) ∧
    (resolveTurn cfg o t act s).2.new_tiebreak_leader_id =
      (if 0 ≤ (resolveTurn cfg o t act s).2.winner_id then
        (resolveTurn cfg o t act s).2.winner_id.toNat
      else s.tiebreak_leader_id) ∧
    (resolveTurn cfg o t act s).1.tiebreak_leader_id =
      (resolveTurn cfg o t act s).2.new_tiebreak_leader_id := by
  have hres := resolveTurn_result cfg o t act s
  have hbne : collect_bids o t s ≠ [] := by
    intro hc
    have := collect_bids_length o t s
    rw [hc] at this
    exact hne (List.length_eq_zero.mp this.symm)
  have hsent := resolve_winner_sentinel cfg.discard_on_all_pass s.tiebreak_leader_id
    s.seating_order (collect_bids o t s) hbne (collect_bids_nonneg o t s)
  refine ⟨?_, ?_, ?_, hres.2.2.2.2.1⟩
  · rw [hres.1]
    exact hsent.1
  · intro h
    rw [hres.1] at h ⊢
    have := hsent.2 h
    rw [collect_bids_length] at this
    exact this
  · rw [hres.2.2.1, hres.1]

/-- C10 witness: the sentinel characterisation at the hand-built state
`wState` (player 0 bids 1, nobody else does, no discard). -/
theorem C10_winner_sentinel_and_leader_witness :
    (([] : List PlayerState) ≠ wState.players) ∧
    (((resolveTurn simCfg simOracle 0 wAct wState).2.winner_id = -1 ↔
        (simCfg.discard_on_all_pass = true ∧
          ∀ b ∈ collect_bids simOracle 0 wState, b = 0)) ∧
    ((resolveTurn simCfg simOracle 0 wAct wState).2.winner_id ≠ -1 →
        0 ≤ (resolveTurn simCfg simOracle 0 wAct wState).2.winner_id ∧
          (resolveTurn simCfg simOracle 0 wAct wState).2.winner_id <
            (wState.players.length : Int)) ∧
    (resolveTurn simCfg simOracle 0 wAct wState).2.new_tiebreak_leader_id =
      (if 0 ≤ (resolveTurn simCfg simOracle 0 wAct wState).2.winner_id then
        (resolveTurn simCfg simOracle 0 wAct wState).2.winner_id.toNat
      else wState.tiebreak_leader_id) ∧
    (resolveTurn simCfg simOracle 0 wAct wState).1.tiebreak_leader_id =
      (resolveTurn simCfg simOracle 0 wAct wState).2.new_tiebreak_leader_id) :=
  ⟨by decide, C10_winner_sentinel_and_leader simCfg simOracle 0 wAct wState (by decide)⟩

/-- C4: a `None`/exception bid and any out-of-range bid legalize to 0, a
legalized bid always lies in `[0, cash]`, and consequently in any game
whose configured starting cash is non-negative no player's cash is ever
negative at any turn boundary. -/
theorem C4_bid_legalization_cash_never_negative :
    (∀ cash : Int, legalize none cash = 0) ∧
    (∀ b cash : Int, (b < 0 ∨ b > cash) → legalize (some b) cash = 0) ∧
    (∀ (raw : Option Int) (cash : Int), 0 ≤ legalize raw cash) ∧
    (∀ (raw : Option Int) (cash : Int), 0 ≤ cash → legalize raw cash ≤ cash) ∧
    (∀ (o : Oracle) (n : Nat) (cfg : EngineConfig) (vc : ValueChart)
        (ts : List TrinketObjective) (bns : Option (List String)) (s0 : GameState)
        (sc : Int),
      engineInit o n cfg vc ts bns = .ok s0 →
      alookup cfg.starting_cash_by_players n = some sc →
      0 ≤ sc →
      ∀ fuel, ∀ p ∈ (runLoop cfg o fuel s0 0).players, 0 ≤ p.cash) := by
  refine ⟨legalize_none, fun b cash h => legalize_illegal h, legalize_nonneg,
    fun raw cash h => legalize_le_cash raw h, ?_⟩
  intro o n cfg vc ts bns s0 sc h hsc hsc0 fuel
  obtain ⟨names, sc', per, _, hsc', _, _, _, hs0⟩ := engineInit_ok_elim h
  rw [hsc] at hsc'
  have hscv : sc' = sc := by
    injection hsc' with hv
    exact hv.symm
  subst hscv
  subst hs0
  exact runLoop_cashInv cfg o fuel _ 0
    (initBuild_cashInv o n cfg vc ts names sc' per hsc0)

/-- C4 witness: the cash invariant applied to a concrete `simCfg` game. -/
theorem C4_bid_legalization_cash_never_negative_witness :
    engineInit simOracle 3 simCfg default_value_chart [] none = .ok (simS0 []) ∧
    alookup simCfg.starting_cash_by_players 3 = some 30 ∧
    (0 : Int) ≤ 30 ∧
    (∀ p ∈ (runLoop simCfg simOracle 4 (simS0 []) 0).players, 0 ≤ p.cash) :=
  ⟨rfl, rfl, by decide,
    C4_bid_legalization_cash_never_negative.2.2.2.2 simOracle 3 simCfg
      default_value_chart [] none (simS0 []) 30 rfl rfl (by decide) 4⟩

/-- C6: `claimed_by` on a trinket state transitions at most once, from
`None` to a player id that never changes for the rest of the game; a new
claim can only name the resolving turn's winner, a no-winner resolution
leaves the trinket list untouched, and on a claim the winner's
`trinket_points` grow by exactly the newly claimed objectives' points
while every other player's total is unchanged. -/
theorem C6_trinket_claimed_once :
    (∀ (cfg : EngineConfig) (o : Oracle) (fuel : Nat) (s : GameState) (t i v : Nat),
      claimedAt s i = some v → claimedAt (runLoop cfg o fuel s t) i = some v) ∧
    (∀ (cfg : EngineConfig) (o : Oracle) (t : Nat) (act : GameAction) (s : GameState)
        (i : Nat),
      claimedAt s i = none → claimedAt (resolveTurn cfg o t act s).1 i ≠ none →
        0 ≤ (resolveTurn cfg o t act s).2.winner_id ∧
          claimedAt (resolveTurn cfg o t act s).1 i =
            some (resolveTurn cfg o t act s).2.winner_id.toNat) ∧
    (∀ (cfg : EngineConfig) (o : Oracle) (t : Nat) (act : GameAction) (s : GameState),
      (resolveTurn cfg o t act s).2.winner_id < 0 →
        (resolveTurn cfg o t act s).1.trinkets = s.trinkets) ∧
    (∀ (cfg : EngineConfig) (o : Oracle) (t : Nat) (act : GameAction) (s : GameState)
        (j : Nat),
      ((resolveTurn cfg o t act s).2.winner_id < 0 ∨
        j ≠ (resolveTurn cfg o t act s).2.winner_id.toNat) →
      ptsAt (resolveTurn cfg o t act s).1 j = ptsAt s j) ∧
    (∀ (cfg : EngineConfig) (o : Oracle) (t : Nat) (act : GameAction) (s : GameState),
      0 ≤ (resolveTurn cfg o t act s).2.winner_id →
      (resolveTurn cfg o t act s).2.winner_id.toNat < s.players.length →
      ptsAt (resolveTurn cfg o t act s).1 (resolveTurn cfg o t act s).2.winner_id.toNat =
        ptsAt s (resolveTurn cfg o t act s).2.winner_id.toNat +
          newly_claimed_points s.trinkets (resolveTurn cfg o t act s).1.trinkets) :=
  ⟨fun cfg o fuel s t i v h => runLoop_claimed_mono cfg o fuel s t h,
    fun cfg o t act s i h h' => resolveTurn_claimed_new cfg o t act s h h',
    fun cfg o t act s h => resolveTurn_no_winner_trinkets cfg o t act s h,
    fun cfg o t act s j h => resolveTurn_points_other cfg o t act s j h,
    fun cfg o t act s h h' => resolveTurn_points_winner cfg o t act s h h'⟩

/-- C6 witness: at the hand-built state `wState`, player 0 wins the ruby,
completes the pendant, the claim names the winner, and the points move as
stated; the claim then persists through the rest of the run. -/
theorem C6_trinket_claimed_once_witness :
    claimedAt wState 0 = none ∧
    claimedAt (resolveTurn simCfg simOracle 0 wAct wState).1 0 ≠ none ∧
    (0 ≤ (resolveTurn simCfg simOracle 0 wAct wState).2.winner_id ∧
      claimedAt (resolveTurn simCfg simOracle 0 wAct wState).1 0 =
        some (resolveTurn simCfg simOracle 0 wAct wState).2.winner_id.toNat) ∧
    (0 ≤ (resolveTurn simCfg simOracle 0 wAct wState).2.winner_id →
      (resolveTurn simCfg simOracle 0 wAct wState).2.winner_id.toNat <
        wState.players.length →
      ptsAt (resolveTurn simCfg simOracle 0 wAct wState).1
          (resolveTurn simCfg simOracle 0 wAct wState).2.winner_id.toNat =
        ptsAt wState (resolveTurn simCfg simOracle 0 wAct wState).2.winner_id.toNat +
          newly_claimed_points wState.trinkets
            (resolveTurn simCfg simOracle 0 wAct wState).1.trinkets) ∧
    (claimedAt (resolveTurn simCfg simOracle 0 wAct wState).1 0 = some 0 →
      claimedAt (runLoop simCfg simOracle 2 (resolveTurn simCfg simOracle 0 wAct wState).1 1)
        0 = some 0) :=
  ⟨by decide, by decide,
    C6_trinket_claimed_once.2.1 simCfg simOracle 0 wAct wState 0 (by decide) (by decide),
    C6_trinket_claimed_once.2.2.2.2 simCfg simOracle 0 wAct wState,
    fun h => C6_trinket_claimed_once.1 simCfg simOracle 2
      (resolveTurn simCfg simOracle 0 wAct wState).1 1 0 0 h⟩

/-- C9: an investment won with bid `b` costs the winner exactly `b` in
cash on that turn while appending an `InvestmentPosition` with
`locked = b` and payout 5 or 10 by kind, and scoring later adds
`payout + locked` back, so the investment's net score contribution is
exactly `+payout`. -/
theorem C9_investment_cash_neutral :
    (∀ (cfg : EngineConfig) (o : Oracle) (t : Nat) (act : GameAction) (s : GameState),
      (act.kind = .invest5 ∨ act.kind = .invest10) →
      0 ≤ (resolveTurn cfg o t act s).2.winner_id →
      (resolveTurn cfg o t act s).2.winner_id.toNat < s.players.length →
      ((resolveTurn cfg o t act s).1.players.getD
          (resolveTurn cfg o t act s).2.winner_id.toNat default).cash =
        (s.players.getD (resolveTurn cfg o t act s).2.winner_id.toNat default).cash -
          (resolveTurn cfg o t act s).2.winning_bid ∧
      ((resolveTurn cfg o t act s).1.players.getD
          (resolveTurn cfg o t act s).2.winner_id.toNat default).investments =
        (s.players.getD
            (resolveTurn cfg o t act s).2.winner_id.toNat default).investments ++
          [{ id := "I" ++ toString t,
             payout := if act.kind = .invest5 then 5 else 10,
             locked := (resolveTurn cfg o t act s).2.winning_bid }]) ∧
    (∀ (chart : ValueChart) (counts : Suit → Nat) (p : PlayerState)
        (inv : InvestmentPosition),
      compute_score chart counts { p with investments := p.investments ++ [inv] } =
        compute_score chart counts p + (inv.payout + inv.locked)) :=
  ⟨fun cfg o t act s hk hw hlt => resolveTurn_invest cfg o t act s hk hw hlt,
    compute_score_invest_append⟩

/-- C9 witness: an `Invest5` turn at `wState` (player 0 wins with bid 1),
and the scoring linearity at a concrete investment. -/
theorem C9_investment_cash_neutral_witness :
    (wInvAct.kind = .invest5 ∨ wInvAct.kind = .invest10) ∧
    (0 ≤ (resolveTurn simCfg simOracle 0 wInvAct wState).2.winner_id) ∧
    ((resolveTurn simCfg simOracle 0 wInvAct wState).2.winner_id.toNat <
      wState.players.length) ∧
    (((resolveTurn simCfg simOracle 0 wInvAct wState).1.players.getD
          (resolveTurn simCfg simOracle 0 wInvAct wState).2.winner_id.toNat default).cash =
        (wState.players.getD
            (resolveTurn simCfg simOracle 0 wInvAct wState).2.winner_id.toNat default).cash -
          (resolveTurn simCfg simOracle 0 wInvAct wState).2.winning_bid ∧
      ((resolveTurn simCfg simOracle 0 wInvAct wState).1.players.getD
          (resolveTurn simCfg simOracle 0 wInvAct wState).2.winner_id.toNat
            default).investments =
        (wState.players.getD
            (resolveTurn simCfg simOracle 0 wInvAct
              wState).2.winner_id.toNat default).investments ++
          [{ id := "I" ++ toString 0,
             payout := if wInvAct.kind = .invest5 then 5 else 10,
             locked := (resolveTurn simCfg simOracle 0 wInvAct wState).2.winning_bid }]) :=
  ⟨Or.inl rfl, by decide, by decide,
    C9_investment_cash_neutral.1 simCfg simOracle 0 wInvAct wState (Or.inl rfl)
      (by decide) (by decide)⟩

/-- C1: at every turn boundary of a constructed game (in particular at
termination) the engine's value chart and frozen start-of-game info
census are unchanged, the census counts exactly the info cards dealt at
game start, and every `(player_id, name, score)` entry of the returned
final scores equals cash plus gem values looked up at the frozen census
plus investment payouts and deposits minus loan principals plus trinket
points. -/
theorem C1_final_score_formula (o : Oracle) (n : Nat) (cfg : EngineConfig)
    (vc : ValueChart) (ts : List TrinketObjective) (bns : Option (List String))
    (s0 : GameState) (fuel : Nat) (h : engineInit o n cfg vc ts bns = .ok s0) :
    (runLoop cfg o fuel s0 0).value_chart = vc ∧
    (runLoop cfg o fuel s0 0).info_counts_by_suit_at_start =
      s0.info_counts_by_suit_at_start ∧
    (∀ st, s0.info_counts_by_suit_at_start st = info_counts_of s0.players st) ∧
    ∀ e ∈ finalize_scores (runLoop cfg o fuel s0 0),
      ∃ p ∈ (runLoop cfg o fuel s0 0).players,
        e = (p.player_id, p.name,
          p.cash
            + (p.gems_owned.map (fun g =>
                gem_value vc (s0.info_counts_by_suit_at_start g.suit))).sum
            + (p.investments.map (fun i => i.payout + i.locked)).sum
            - (p.loans.map (fun l => l.principal)).sum
            + p.trinket_points) := by
  obtain ⟨names, sc, per, _, _, _, _, _, hs0⟩ := engineInit_ok_elim h
  obtain ⟨hvc, hic, _⟩ := runLoop_frozen cfg o fuel s0 0
  have hvc0 : s0.value_chart = vc := by rw [hs0]; rfl
  have hcensus : ∀ st, s0.info_counts_by_suit_at_start st = info_counts_of s0.players st := by
    intro st
    rw [hs0]
    rfl
  refine ⟨hvc.trans hvc0, hic, hcensus, ?_⟩
  intro e he
  unfold finalize_scores at he
  rw [(List.mergeSort_perm _ _).mem_iff] at he
  obtain ⟨p, hp, rfl⟩ := List.mem_map.mp he
  refine ⟨p, hp, ?_⟩
  rw [hvc.trans hvc0, hic]
  rfl

/-- C1 witness: the formula at a finished concrete `simCfg` game. -/
theorem C1_final_score_formula_witness :
    engineInit simOracle 3 simCfg default_value_chart [] none = .ok (simS0 []) ∧
    ((runLoop simCfg simOracle 6 (simS0 []) 0).value_chart = default_value_chart ∧
      (runLoop simCfg simOracle 6 (simS0 []) 0).info_counts_by_suit_at_start =
        (simS0 []).info_counts_by_suit_at_start ∧
      (∀ st, (simS0 []).info_counts_by_suit_at_start st =
        info_counts_of (simS0 []).players st) ∧
      ∀ e ∈ finalize_scores (runLoop simCfg simOracle 6 (simS0 []) 0),
        ∃ p ∈ (runLoop simCfg simOracle 6 (simS0 []) 0).players,
          e = (p.player_id, p.name,
            p.cash
              + (p.gems_owned.map (fun g =>
                  gem_value default_value_chart
                    ((simS0 []).info_counts_by_suit_at_start g.suit))).sum
              + (p.investments.map (fun i => i.payout + i.locked)).sum
              - (p.loans.map (fun l => l.principal)).sum
              + p.trinket_points)) :=
  ⟨rfl, C1_final_score_formula simOracle 3 simCfg default_value_chart [] none
    (simS0 []) 6 rfl⟩

/-- C5: the simulator's trinket default is not drawn from its seeded RNG.
With trinkets passed explicitly the run is a pure function of its
arguments, but with `trinkets=None` the 4-of-30 sample comes from
`random.Random(None)` (OS entropy): two legitimate entropy outcomes give
different trinket sets, and identical games under those two sets produce
different final scores and a different game winner — so two runs with
identical seed and defaults need not produce identical game logs. -/
theorem C5_default_trinkets_unseeded :
    (∀ (t : List TrinketObjective) (e : List TrinketObjective → List TrinketObjective),
      simulation_trinkets (some t) e = t) ∧
    simulation_trinkets none sampleA ≠ simulation_trinkets none sampleB ∧
    compute_score (runWith (simulation_trinkets none sampleA)).value_chart
        (runWith (simulation_trinkets none sampleA)).info_counts_by_suit_at_start
        ((runWith (simulation_trinkets none sampleA)).players.getD 0 default) ≠
      compute_score (runWith (simulation_trinkets none sampleB)).value_chart
        (runWith (simulation_trinkets none sampleB)).info_counts_by_suit_at_start
        ((runWith (simulation_trinkets none sampleB)).players.getD 0 default) := by
  refine ⟨fun t e => rfl, by decide, by decide⟩

/-- C7 (amended): with `discard_on_all_pass` disabled, the facedown pile,
the upcoming row, all owned gems and all dealt info cards always total
`suits × gems_per_suit` at every turn boundary. -/
theorem C7_gem_conservation_no_discard (o : Oracle) (n : Nat) (cfg : EngineConfig)
    (vc : ValueChart) (ts : List TrinketObjective) (bns : Option (List String))
    (s0 : GameState)
    (hsh : ∀ l, (o.shuffleGems l).length = l.length)
    (hd : cfg.discard_on_all_pass = false)
    (h : engineInit o n cfg vc ts bns = .ok s0) :
    ∀ fuel, gemCount (runLoop cfg o fuel s0 0) = 5 * cfg.gems_per_suit := by
  intro fuel
  obtain ⟨names, sc, per, hcount, _, _, _, _, hs0⟩ := engineInit_ok_elim h
  have hne : s0.players ≠ [] := by
    intro hc
    have := initBuild_players_length o n cfg vc ts names sc per
    rw [← hs0, hc] at this
    simp at this
    omega
  rw [runLoop_gemCount cfg o hd fuel s0 0 hne, hs0]
  exact initBuild_gemCount o n cfg vc ts names sc per (hsh _)

/-- C7 witness: conservation holds along a finished concrete game with
the discard flag off. -/
theorem C7_gem_conservation_no_discard_witness :
    (∀ l, (simOracle.shuffleGems l).length = l.length) ∧
    simCfg.discard_on_all_pass = false ∧
    engineInit simOracle 3 simCfg default_value_chart [] none = .ok (simS0 []) ∧
    gemCount (runLoop simCfg simOracle 6 (simS0 []) 0) = 5 * simCfg.gems_per_suit :=
  ⟨fun l => rfl, rfl, rfl,
    C7_gem_conservation_no_discard simOracle 3 simCfg default_value_chart [] none
      (simS0 []) (fun l => rfl) rfl rfl 6⟩

/-- C7 counterexample: with `discard_on_all_pass` enabled, an all-pass
`AUCTION_1` turn removes the auctioned gem from the game: right after
construction the total is `5 × gems_per_suit = 5`, and after one loop
iteration of an all-pass game it is 4. -/
theorem C7_counterexample_all_pass_discard :
    engineInit idOracle 3 cexCfg default_value_chart [] none = .ok cexS0 ∧
    cexCfg.discard_on_all_pass = true ∧
    gemCount cexS0 = 5 * cexCfg.gems_per_suit ∧
    gemCount (iterState (loopIter cexCfg idOracle cexS0 0)) =
      5 * cexCfg.gems_per_suit - 1 := by
  exact ⟨rfl, rfl, by decide, by decide⟩

/-- C8 (amended): construction fails exactly when the player count is
outside `[3,5]`, or the starting-cash table has no entry for the player
count, or explicit bot names have a length other than the player count,
or the info-card-count table has no entry for the player count, or the
gem deck cannot cover the info-card deal; construction performs no turn,
so every failure precedes play. -/
theorem C8_construction_error_characterisation (o : Oracle) (n : Nat)
    (cfg : EngineConfig) (vc : ValueChart) (ts : List TrinketObjective)
    (bns : Option (List String))
    (hsh : ∀ l, (o.shuffleGems l).length = l.length) :
    (∃ e, engineInit o n cfg vc ts bns = .error e) ↔
      (¬ (3 ≤ n ∧ n ≤ 5) ∨
        alookup cfg.starting_cash_by_players n = none ∨
        (∃ ns, bns = some ns ∧ ns.length ≠ n) ∨
        alookup cfg.info_cards_per_player n = none ∨
        (∃ per, alookup cfg.info_cards_per_player n = some per ∧
          5 * cfg.gems_per_suit < n * per)) :=
  engineInit_error_iff o n cfg vc ts bns hsh

/-- C8 witness: the characterisation at 4 players with the default
config and no explicit names (construction succeeds). -/
theorem C8_construction_error_characterisation_witness :
    (∀ l, (idOracle.shuffleGems l).length = l.length) ∧
    ¬ (∃ e, engineInit idOracle 4 defaultConfig default_value_chart [] none = .error e) :=
  ⟨fun l => rfl,
    fun he =>
      have hiff := C8_construction_error_characterisation idOracle 4 defaultConfig
        default_value_chart [] none (fun l => rfl)
      by
        have := hiff.mp he
        revert this
        decide⟩

/-- C8 counterexample: a construction input outside the claim's three
conditions still raises — 3 bots, the default config, a sufficient deck,
but `bot_names` of length 2. -/
theorem C8_counterexample_bot_names_raises :
    engineInit idOracle 3 defaultConfig default_value_chart [] (some ["A", "B"]) =
      .error .botNamesMismatch ∧
    (3 ≤ 3 ∧ 3 ≤ 5) ∧
    alookup defaultConfig.starting_cash_by_players 3 = some 30 ∧
    alookup defaultConfig.info_cards_per_player 3 = some 5 ∧
    ¬ ((idOracle.shuffleGems (make_gem_deck defaultConfig.gems_per_suit)).length <
      3 * 5) := by
  exact ⟨rfl, by decide, rfl, rfl, by decide⟩

end PocketRockets
